import Mathlib

/-
Verification development for the OrbitaLink Central Unit orchestrator.

The Python sources are shallowly embedded as executable Lean definitions:

* Python dicts are modelled as association lists (List (String × β)) with
  dict-assignment semantics (dictSet replaces the value of an existing key in
  place, otherwise appends a new key at the end, matching insertion order).
* ISO-8601 timestamps handled through iso_to_epoch are modelled directly by
  their integer epoch value; datetime.fromisoformat(..).timestamp() is strictly
  monotone on valid timestamps, so only the numeric order matters to the code
  under study.
* Floating point elevation readings are modelled as integers; the code never
  computes with them, it only copies them.
* Awaited socket emissions (sio.emit, send_fu_command) perform no state
  mutation on the structures studied here and are omitted.
-/

namespace Util

/-- Python dict lookup: first binding of the key, if any. -/
def dictGet {β : Type} : List (String × β) → String → Option β
  | [], _ => none
  | (k', v) :: rest, k => if k' = k then some v else dictGet rest k

/-- Python dict assignment d[k] = v: replace the value of an existing key in
place (keeping key order), otherwise append the new binding at the end. -/
def dictSet {β : Type} : List (String × β) → String → β → List (String × β)
  | [], k, v => [(k, v)]
  | (k', v') :: rest, k, v =>
    if k' = k then (k, v) :: rest else (k', v') :: dictSet rest k v

/-- Python dict deletion d.pop(k): drop every binding of the key. -/
def dictRemove {β : Type} (m : List (String × β)) (k : String) :
    List (String × β) :=
  m.filter (fun e => decide (e.1 ≠ k))

theorem dictGet_dictSet_self {β : Type} (m : List (String × β)) (k : String)
    (v : β) : dictGet (dictSet m k v) k = some v := by
  induction m with
  | nil => simp [dictSet, dictGet]
  | cons e rest ih =>
    by_cases h : e.1 = k
    · simp [dictSet, h, dictGet]
    · simp [dictSet, h, dictGet, ih]

theorem dictGet_dictSet_ne {β : Type} (m : List (String × β)) (k k' : String)
    (v : β) (h : k' ≠ k) : dictGet (dictSet m k v) k' = dictGet m k' := by
  have hk : k ≠ k' := Ne.symm h
  induction m with
  | nil => simp [dictSet, dictGet, hk]
  | cons e rest ih =>
    by_cases he : e.1 = k
    · subst he
      simp [dictSet, dictGet, hk, Ne.symm h]
    · by_cases he' : e.1 = k'
      · simp [dictSet, he, dictGet, he', h]
      · simp [dictSet, he, dictGet, he', ih]

theorem dictGet_map_self {β : Type} (f : String → β) (l : List String)
    (k : String) (hk : k ∈ l) :
    dictGet (l.map (fun x => (x, f x))) k = some (f k) := by
  induction l with
  | nil => cases hk
  | cons x rest ih =>
    by_cases h : x = k
    · subst h; simp [dictGet]
    · rcases List.mem_cons.mp hk with h1 | h1
      · exact absurd h1.symm h
      · simp [dictGet, h, ih h1]

theorem dictGet_eq_none {β : Type} (m : List (String × β)) (k : String)
    (hk : k ∉ m.map (·.1)) : dictGet m k = none := by
  induction m with
  | nil => rfl
  | cons e rest ih =>
    simp only [List.map_cons, List.mem_cons] at hk
    push_neg at hk
    simp [dictGet, Ne.symm hk.1, ih hk.2]

theorem dictGet_of_mem_nodupKeys {β : Type} (m : List (String × β))
    (e : String × β) (hnd : (m.map (·.1)).Nodup) (he : e ∈ m) :
    dictGet m e.1 = some e.2 := by
  induction m with
  | nil => cases he
  | cons x rest ih =>
    simp only [List.map_cons, List.nodup_cons] at hnd
    rcases List.mem_cons.mp he with h1 | h1
    · subst h1; simp [dictGet]
    · have hx : x.1 ≠ e.1 := by
        intro h
        exact hnd.1 (h ▸ List.mem_map_of_mem (·.1) h1)
      simp [dictGet, hx, ih hnd.2 h1]

end Util

/- ====================================================================
SECTION: Assigner (src/Assigner.py, assign_passes)
==================================================================== -/

namespace Assigner

open Util

/-- next(cycle) of itertools.cycle(fu_ids) after k previous draws: the element
at index k modulo the list length. -/
def cycleNext (fuIds : List String) (k : Nat) : String :=
  fuIds.getD (k % fuIds.length) ""

/-- assignments[assigned_fu].append(p): append p to the value list of the
given key (the key is always present, created by the initial comprehension). -/
def appendTo {α : Type} (m : List (String × List α)) (fid : String) (p : α) :
    List (String × List α) :=
  m.map (fun e => (e.1, if e.1 = fid then e.2 ++ [p] else e.2))

/-- The assignment loop over `all_passes`: each pass goes to `next(cycle)`,
with k counting the passes already drawn from the cycle. -/
def assignAux {α : Type} (fuIds : List String) :
    Nat → List (String × List α) → List α → List (String × List α)
  | _, m, [] => m
  | k, m, p :: ps => assignAux fuIds (k + 1) (appendTo m (cycleNext fuIds k) p) ps

/-- Core of Assigner.assign_passes: `assignments = {fid: [] for fid in fu_ids}`
followed by the round-robin loop over the flattened pass list. -/
def assign_passes {α : Type} (fuIds : List String) (passes : List α) :
    List (String × List α) :=
  assignAux fuIds 0 (fuIds.map (fun fid => (fid, ([] : List α)))) passes

theorem assignAux_append {α : Type} (fuIds : List String) (l1 l2 : List α) :
    ∀ (k : Nat) (m : List (String × List α)),
      assignAux fuIds k m (l1 ++ l2) =
        assignAux fuIds (k + l1.length) (assignAux fuIds k m l1) l2 := by
  induction l1 with
  | nil => intro k m; simp [assignAux]
  | cons p ps ih =>
    intro k m
    show assignAux fuIds (k + 1) (appendTo m (cycleNext fuIds k) p) (ps ++ l2) =
      assignAux fuIds (k + (p :: ps).length)
        (assignAux fuIds (k + 1) (appendTo m (cycleNext fuIds k) p) ps) l2
    rw [ih]
    have harith : k + 1 + ps.length = k + (p :: ps).length := by
      simp [List.length_cons]; omega
    rw [harith]

theorem keys_appendTo {α : Type} (m : List (String × List α)) (fid : String)
    (p : α) : (appendTo m fid p).map (·.1) = m.map (·.1) := by
  simp [appendTo, List.map_map, Function.comp]

theorem keys_assignAux {α : Type} (fuIds : List String) (passes : List α) :
    ∀ (k : Nat) (m : List (String × List α)),
      (assignAux fuIds k m passes).map (·.1) = m.map (·.1) := by
  induction passes with
  | nil => intro k m; rfl
  | cons p ps ih =>
    intro k m
    simp [assignAux, ih, keys_appendTo]

theorem dictGet_appendTo {α : Type} (m : List (String × List α))
    (fid k : String) (p : α) :
    dictGet (appendTo m fid p) k =
      (dictGet m k).map (fun l => if k = fid then l ++ [p] else l) := by
  induction m with
  | nil => simp [appendTo, dictGet]
  | cons e rest ih =>
    by_cases h : e.1 = k
    · subst h
      by_cases h2 : e.1 = fid <;> simp [appendTo, dictGet, h2]
    · simpa [appendTo, dictGet, h] using ih

theorem cycleNext_eq_get (fuIds : List String) (k : Nat)
    (h : k % fuIds.length < fuIds.length) :
    cycleNext fuIds k = fuIds.get ⟨k % fuIds.length, h⟩ := by
  rw [cycleNext, List.getD_eq_get _ _ h]

/-- The length profile of the round-robin result is an exact staircase: with
passes.length = a * N + r (r < N), the FU at sorted position j receives
a + 1 passes when j < r and a passes otherwise. -/
theorem assign_len_char {α : Type} (fuIds : List String) (hne : fuIds ≠ [])
    (hnd : fuIds.Nodup) (passes : List α) :
    ∃ a r, r < fuIds.length ∧ passes.length = a * fuIds.length + r ∧
      ∀ (j : Nat) (hj : j < fuIds.length), ∃ l,
        dictGet (assign_passes fuIds passes) (fuIds.get ⟨j, hj⟩) = some l ∧
        l.length = a + (if j < r then 1 else 0) := by
  have hN : 0 < fuIds.length := List.length_pos.mpr hne
  induction passes using List.reverseRecOn with
  | nil =>
    refine ⟨0, 0, hN, by simp, ?_⟩
    intro j hj
    refine ⟨[], ?_, by simp⟩
    have hmem : fuIds.get ⟨j, hj⟩ ∈ fuIds := List.get_mem _ _ _
    simpa [assign_passes, assignAux] using
      dictGet_map_self (fun _ => ([] : List α)) fuIds _ hmem
  | append_singleton ps p ih =>
    obtain ⟨a, r, hr, hM, hchar⟩ := ih
    have hstep : assign_passes fuIds (ps ++ [p]) =
        appendTo (assign_passes fuIds ps) (cycleNext fuIds ps.length) p := by
      unfold assign_passes
      rw [assignAux_append]
      simp [assignAux]
    have hmod : ps.length % fuIds.length = r := by
      rw [hM, Nat.mul_comm, Nat.mul_add_mod, Nat.mod_eq_of_lt hr]
    have htgt : cycleNext fuIds ps.length = fuIds.get ⟨r, hr⟩ := by
      rw [cycleNext_eq_get fuIds ps.length (hmod ▸ hr)]
      congr 1
      exact Fin.ext hmod
    have hget_ne : ∀ (j : Nat) (hj : j < fuIds.length), j ≠ r →
        fuIds.get ⟨j, hj⟩ ≠ fuIds.get ⟨r, hr⟩ := by
      intro j hj hjr hcontra
      exact hjr (Fin.val_eq_of_eq ((List.Nodup.get_inj_iff hnd).mp hcontra))
    by_cases hcase : r + 1 < fuIds.length
    · refine ⟨a, r + 1, hcase, ?_, ?_⟩
      · rw [List.length_append, List.length_singleton, hM, Nat.add_assoc]
      · intro j hj
        obtain ⟨l, hl, hlen⟩ := hchar j hj
        by_cases hjr : j = r
        · subst hjr
          refine ⟨l ++ [p], ?_, ?_⟩
          · rw [hstep, htgt, dictGet_appendTo, hl]; simp
          · simp [List.length_append, hlen]
        · refine ⟨l, ?_, ?_⟩
          · rw [hstep, htgt, dictGet_appendTo, hl]
            simp only [Option.map_some']
            rw [if_neg (hget_ne j hj hjr)]
          · rw [hlen]
            split_ifs with h1 h2 h2 <;> omega
    · have hrN : r + 1 = fuIds.length := by omega
      refine ⟨a + 1, 0, hN, ?_, ?_⟩
      · rw [List.length_append, List.length_singleton, hM, Nat.add_assoc, hrN,
          Nat.succ_mul, Nat.add_zero]
      · intro j hj
        obtain ⟨l, hl, hlen⟩ := hchar j hj
        by_cases hjr : j = r
        · subst hjr
          refine ⟨l ++ [p], ?_, ?_⟩
          · rw [hstep, htgt, dictGet_appendTo, hl]; simp
          · simp [List.length_append, hlen]
        · refine ⟨l, ?_, ?_⟩
          · rw [hstep, htgt, dictGet_appendTo, hl]
            simp only [Option.map_some']
            rw [if_neg (hget_ne j hj hjr)]
          · rw [hlen]
            have : j < r := by omega
            simp [this]

theorem keys_assign_passes {α : Type} (fuIds : List String) (passes : List α) :
    (assign_passes fuIds passes).map (·.1) = fuIds := by
  unfold assign_passes
  rw [keys_assignAux]
  induction fuIds with
  | nil => rfl
  | cons x rest ih => simpa using ih

theorem mem_assign_passes_eq_dictGet {α : Type} (fuIds : List String)
    (hnd : fuIds.Nodup) (passes : List α) (e : String × List α)
    (he : e ∈ assign_passes fuIds passes) :
    dictGet (assign_passes fuIds passes) e.1 = some e.2 := by
  apply dictGet_of_mem_nodupKeys _ _ _ he
  rw [keys_assign_passes]
  exact hnd

/-- Total number of assigned passes across all FUs. -/
def totalLen {α : Type} (m : List (String × List α)) : Nat :=
  (m.map (fun e => e.2.length)).sum

/-- Total number of occurrences of one pass value across all FUs' lists. -/
def totalCount {α : Type} [DecidableEq α] (q : α)
    (m : List (String × List α)) : Nat :=
  (m.map (fun e => e.2.count q)).sum

theorem totalLen_appendTo {α : Type} (m : List (String × List α))
    (fid : String) (p : α) :
    totalLen (appendTo m fid p) = totalLen m + (m.map (·.1)).count fid := by
  induction m with
  | nil => rfl
  | cons e rest ih =>
    by_cases h : e.1 = fid <;>
      simp [appendTo, totalLen, List.count_cons, h] at * <;> omega

theorem totalCount_appendTo {α : Type} [DecidableEq α]
    (m : List (String × List α)) (fid : String) (p q : α) :
    totalCount q (appendTo m fid p) =
      totalCount q m +
        (if p = q then 1 else 0) * (m.map (·.1)).count fid := by
  induction m with
  | nil => simp [totalCount, appendTo]
  | cons e rest ih =>
    by_cases h : e.1 = fid <;>
      by_cases hpq : p = q <;>
        simp [appendTo, totalCount, List.count_cons, List.count_append, h,
          hpq] at * <;> omega

theorem cycleNext_mem {fuIds : List String} (hne : fuIds ≠ []) (k : Nat) :
    cycleNext fuIds k ∈ fuIds := by
  have hN : 0 < fuIds.length := List.length_pos.mpr hne
  have h : k % fuIds.length < fuIds.length := Nat.mod_lt _ hN
  rw [cycleNext_eq_get fuIds k h]
  exact List.get_mem _ _ _

theorem totalLen_assignAux {α : Type} (fuIds : List String) (hne : fuIds ≠ [])
    (hnd : fuIds.Nodup) (passes : List α) :
    ∀ (k : Nat) (m : List (String × List α)), m.map (·.1) = fuIds →
      totalLen (assignAux fuIds k m passes) = totalLen m + passes.length := by
  induction passes with
  | nil => intro k m _; simp [assignAux]
  | cons p ps ih =>
    intro k m hkeys
    have hone : (m.map (·.1)).count (cycleNext fuIds k) = 1 := by
      rw [hkeys]
      exact List.count_eq_one_of_mem hnd (cycleNext_mem hne k)
    have hkeys' : (appendTo m (cycleNext fuIds k) p).map (·.1) = fuIds := by
      rw [keys_appendTo, hkeys]
    simp only [assignAux]
    rw [ih (k + 1) _ hkeys', totalLen_appendTo, hone, List.length_cons]
    omega

theorem totalCount_assignAux {α : Type} [DecidableEq α] (fuIds : List String)
    (hne : fuIds ≠ []) (hnd : fuIds.Nodup) (q : α) (passes : List α) :
    ∀ (k : Nat) (m : List (String × List α)), m.map (·.1) = fuIds →
      totalCount q (assignAux fuIds k m passes) =
        totalCount q m + passes.count q := by
  induction passes with
  | nil => intro k m _; simp [assignAux]
  | cons p ps ih =>
    intro k m hkeys
    have hone : (m.map (·.1)).count (cycleNext fuIds k) = 1 := by
      rw [hkeys]
      exact List.count_eq_one_of_mem hnd (cycleNext_mem hne k)
    have hkeys' : (appendTo m (cycleNext fuIds k) p).map (·.1) = fuIds := by
      rw [keys_appendTo, hkeys]
    simp only [assignAux]
    rw [ih (k + 1) _ hkeys', totalCount_appendTo, hone, List.count_cons]
    by_cases hpq : p = q <;> simp [hpq] <;> omega

theorem assignAux_sublist {α : Type} (fuIds : List String) (passes : List α) :
    ∀ (k : Nat) (m : List (String × List α)),
      ∀ e ∈ assignAux fuIds k m passes,
        ∃ l0 t, (e.1, l0) ∈ m ∧ e.2 = l0 ++ t ∧ t.Sublist passes := by
  induction passes with
  | nil =>
    intro k m e he
    exact ⟨e.2, [], by simpa [Prod.mk.eta] using he, by simp, by simp⟩
  | cons p ps ih =>
    intro k m e he
    simp only [assignAux] at he
    obtain ⟨l0', t', hmem', heq', hsub'⟩ := ih (k + 1) _ e he
    rw [appendTo, List.mem_map] at hmem'
    obtain ⟨x, hx, hxeq⟩ := hmem'
    injection hxeq with hx1 hx2
    by_cases hc : x.1 = cycleNext fuIds k
    · refine ⟨x.2, p :: t', ?_, ?_, List.Sublist.cons₂ p hsub'⟩
      · rw [← hx1, Prod.mk.eta]; exact hx
      · rw [heq', ← hx2, if_pos hc, List.append_assoc]; rfl
    · refine ⟨x.2, t', ?_, ?_, hsub'.trans (List.sublist_cons_self p ps)⟩
      · rw [← hx1, Prod.mk.eta]; exact hx
      · rw [heq', ← hx2, if_neg hc]

theorem keys_init {α : Type} (fuIds : List String) :
    (fuIds.map (fun fid => (fid, ([] : List α)))).map (·.1) = fuIds := by
  induction fuIds with
  | nil => rfl
  | cons x rest ih => simpa using ih

theorem totalLen_init {α : Type} (fuIds : List String) :
    totalLen (fuIds.map (fun fid => (fid, ([] : List α)))) = 0 := by
  induction fuIds with
  | nil => rfl
  | cons x rest ih => simpa [totalLen] using ih

theorem totalCount_init {α : Type} [DecidableEq α] (q : α)
    (fuIds : List String) :
    totalCount q (fuIds.map (fun fid => (fid, ([] : List α)))) = 0 := by
  induction fuIds with
  | nil => rfl
  | cons x rest ih => simpa [totalCount] using ih

/-- Claim C4 (amended): the round-robin assignment of Assigner.assign_passes
gives per-FU assigned counts that differ by at most 1 for any FU id list from
a registry (non-empty, duplicate-free) and any pass list.  The mapping is a
deterministic function of the FU id list in its stored (registry insertion)
order and the activity order, but NOT of the sorted FU id set: see the
counterexample theorem for two registries with the same id set in different
stored orders that produce different assignments. -/
theorem c4_balance {α : Type} (fuIds : List String) (passes : List α)
    (hne : fuIds ≠ []) (hnd : fuIds.Nodup) (e1 e2 : String × List α)
    (h1 : e1 ∈ assign_passes fuIds passes)
    (h2 : e2 ∈ assign_passes fuIds passes) :
    e1.2.length ≤ e2.2.length + 1 := by
  obtain ⟨a, r, hr, hM, hchar⟩ := assign_len_char fuIds hne hnd passes
  have hkey1 : e1.1 ∈ fuIds := by
    rw [← keys_assign_passes fuIds passes]
    exact List.mem_map_of_mem (·.1) h1
  have hkey2 : e2.1 ∈ fuIds := by
    rw [← keys_assign_passes fuIds passes]
    exact List.mem_map_of_mem (·.1) h2
  obtain ⟨n1, hn1⟩ := List.mem_iff_get.mp hkey1
  obtain ⟨n2, hn2⟩ := List.mem_iff_get.mp hkey2
  obtain ⟨l1, hl1, hlen1⟩ := hchar n1.1 n1.2
  obtain ⟨l2, hl2, hlen2⟩ := hchar n2.1 n2.2
  have hd1 := mem_assign_passes_eq_dictGet fuIds hnd passes e1 h1
  have hd2 := mem_assign_passes_eq_dictGet fuIds hnd passes e2 h2
  rw [← hn1] at hd1
  rw [← hn2] at hd2
  have he1 : l1 = e1.2 := by
    have := hl1.symm.trans hd1
    exact Option.some.inj this
  have he2 : l2 = e2.2 := by
    have := hl2.symm.trans hd2
    exact Option.some.inj this
  rw [← he1, ← he2, hlen1, hlen2]
  split_ifs <;> omega

/-- Claim C4 counterexample: two registries holding the same FU id set
(the lists are permutations of each other) and the same activity input order
produce different FU-to-activities mappings, so the assignment is not a
deterministic function of the sorted FU id list and the activity order:
Assigner.assign_passes iterates the registry keys in stored order, it never
sorts them. -/
theorem c4_sorted_ids_counterexample :
    (["a", "b"] : List String).Perm ["b", "a"] ∧
    Util.dictGet (assign_passes ["a", "b"] ([0] : List Nat)) "a" = some [0] ∧
    Util.dictGet (assign_passes ["b", "a"] ([0] : List Nat)) "a" = some [] := by
  refine ⟨by decide, by decide, by decide⟩

/-- Witness for c4_balance at a concrete input. -/
theorem c4_balance_witness :
    (["a", "b"] : List String) ≠ [] ∧ (["a", "b"] : List String).Nodup ∧
    ("a", [1, 3]) ∈ assign_passes ["a", "b"] ([1, 2, 3] : List Nat) ∧
    ("b", [2]) ∈ assign_passes ["a", "b"] ([1, 2, 3] : List Nat) ∧
    ([1, 3] : List Nat).length ≤ ([2] : List Nat).length + 1 :=
  ⟨by decide, by decide, by decide, by decide,
    c4_balance ["a", "b"] [1, 2, 3] (by decide) (by decide) ("a", [1, 3])
      ("b", [2]) (by decide) (by decide)⟩

/-- Claim C10: round-robin assignment is a partition of its input: for every
non-empty duplicate-free FU id list and every pass list, the total number of
assigned passes equals the number of input passes, every value occurs across
the per-FU lists exactly as often as in the input, and each per-FU list is a
sublist of the input (it preserves the input's relative order). -/
theorem c10_partition {α : Type} [DecidableEq α] (fuIds : List String)
    (passes : List α) (hne : fuIds ≠ []) (hnd : fuIds.Nodup) :
    totalLen (assign_passes fuIds passes) = passes.length ∧
    (∀ q : α, totalCount q (assign_passes fuIds passes) = passes.count q) ∧
    (∀ e ∈ assign_passes fuIds passes, e.2.Sublist passes) := by
  refine ⟨?_, ?_, ?_⟩
  · unfold assign_passes
    rw [totalLen_assignAux fuIds hne hnd passes 0 _ (keys_init fuIds),
      totalLen_init]
    omega
  · intro q
    unfold assign_passes
    rw [totalCount_assignAux fuIds hne hnd q passes 0 _ (keys_init fuIds),
      totalCount_init]
    omega
  · intro e he
    obtain ⟨l0, t, hmem, heq, hsub⟩ :=
      assignAux_sublist fuIds passes 0 _ e he
    rw [List.mem_map] at hmem
    obtain ⟨fid, _, hfid⟩ := hmem
    injection hfid with hk hv
    rw [heq, ← hv]
    simpa using hsub

/-- Witness for c10_partition at a concrete input. -/
theorem c10_partition_witness :
    (["a", "b"] : List String) ≠ [] ∧ (["a", "b"] : List String).Nodup ∧
    totalLen (assign_passes ["a", "b"] ([1, 2, 2] : List Nat)) =
      ([1, 2, 2] : List Nat).length ∧
    totalCount 2 (assign_passes ["a", "b"] ([1, 2, 2] : List Nat)) =
      ([1, 2, 2] : List Nat).count 2 ∧
    ([1, 2] : List Nat).Sublist [1, 2, 2] :=
  ⟨by decide, by decide,
    (c10_partition ["a", "b"] [1, 2, 2] (by decide) (by decide)).1,
    (c10_partition ["a", "b"] [1, 2, 2] (by decide) (by decide)).2.1 2,
    (c10_partition ["a", "b"] [1, 2, 2] (by decide) (by decide)).2.2
      ("a", [1, 2]) (by decide)⟩

end Assigner

/- ====================================================================
SECTION: stable sort (model of Python list.sort with a key)

Python's list.sort is a stable sort; a stable sort by a fixed key is a
unique function of its input, so it is modelled here by a structurally
recursive stable insertion sort: each element is inserted after all
previously placed elements whose key is less than or equal to its own.
==================================================================== -/

namespace StableSort

/-- Insert a after every prefix element x with le x a (so after equal keys:
the insertion is stable). -/
def insertSorted {α : Type} (le : α → α → Bool) (a : α) : List α → List α
  | [] => [a]
  | b :: l => if le b a then b :: insertSorted le a l else a :: b :: l

def stableSortAux {α : Type} (le : α → α → Bool) :
    List α → List α → List α
  | acc, [] => acc
  | acc, a :: l => stableSortAux le (insertSorted le a acc) l

/-- Stable sort: fold the input from the left into a sorted accumulator. -/
def stableSort {α : Type} (le : α → α → Bool) (l : List α) : List α :=
  stableSortAux le [] l

theorem insertSorted_perm {α : Type} (le : α → α → Bool) (a : α)
    (l : List α) : (insertSorted le a l).Perm (a :: l) := by
  induction l with
  | nil => simp [insertSorted]
  | cons b l ih =>
    by_cases h : le b a
    · rw [insertSorted, if_pos h]
      exact (ih.cons b).trans (List.Perm.swap a b l)
    · rw [insertSorted, if_neg h]

theorem stableSortAux_perm {α : Type} (le : α → α → Bool) (l : List α) :
    ∀ acc : List α, (stableSortAux le acc l).Perm (acc ++ l) := by
  induction l with
  | nil => intro acc; simp [stableSortAux]
  | cons a l ih =>
    intro acc
    have h2 : (insertSorted le a acc ++ l).Perm (acc ++ a :: l) :=
      ((insertSorted_perm le a acc).append_right l).trans List.perm_middle.symm
    exact (ih (insertSorted le a acc)).trans h2

theorem stableSort_perm {α : Type} (le : α → α → Bool) (l : List α) :
    (stableSort le l).Perm l := by
  simpa [stableSort] using stableSortAux_perm le l []

theorem mem_insertSorted {α : Type} (le : α → α → Bool) (a x : α)
    (l : List α) (hx : x ∈ insertSorted le a l) : x = a ∨ x ∈ l := by
  rcases List.mem_cons.mp ((insertSorted_perm le a l).mem_iff.mp hx) with h | h
  · exact Or.inl h
  · exact Or.inr h

theorem insertSorted_sorted {α : Type} (le : α → α → Bool)
    (htrans : ∀ a b c, le a b = true → le b c = true → le a c = true)
    (htotal : ∀ a b, le a b = true ∨ le b a = true) (a : α) (l : List α)
    (hs : l.Pairwise (fun x y => le x y = true)) :
    (insertSorted le a l).Pairwise (fun x y => le x y = true) := by
  induction l with
  | nil => simp [insertSorted]
  | cons b l ih =>
    rcases List.pairwise_cons.mp hs with ⟨hb, hl⟩
    by_cases h : le b a
    · rw [insertSorted, if_pos h]
      refine List.pairwise_cons.mpr ⟨?_, ih hl⟩
      intro x hx
      rcases mem_insertSorted le a x l hx with h1 | h1
      · subst h1; exact h
      · exact hb x h1
    · rw [insertSorted, if_neg h]
      have hab : le a b = true := by
        rcases htotal a b with h2 | h2
        · exact h2
        · exact absurd h2 h
      refine List.pairwise_cons.mpr ⟨?_, hs⟩
      intro x hx
      rcases List.mem_cons.mp hx with h1 | h1
      · subst h1; exact hab
      · exact htrans a b x hab (hb x h1)

theorem stableSortAux_sorted {α : Type} (le : α → α → Bool)
    (htrans : ∀ a b c, le a b = true → le b c = true → le a c = true)
    (htotal : ∀ a b, le a b = true ∨ le b a = true) (l : List α) :
    ∀ acc : List α, acc.Pairwise (fun x y => le x y = true) →
      (stableSortAux le acc l).Pairwise (fun x y => le x y = true) := by
  induction l with
  | nil => intro acc hacc; exact hacc
  | cons a l ih =>
    intro acc hacc
    exact ih _ (insertSorted_sorted le htrans htotal a acc hacc)

theorem stableSort_sorted {α : Type} (le : α → α → Bool)
    (htrans : ∀ a b c, le a b = true → le b c = true → le a c = true)
    (htotal : ∀ a b, le a b = true ∨ le b a = true) (l : List α) :
    (stableSort le l).Pairwise (fun x y => le x y = true) :=
  stableSortAux_sorted le htrans htotal l [] List.Pairwise.nil

theorem filter_insertSorted {α : Type} (le : α → α → Bool)
    (htrans : ∀ a b c, le a b = true → le b c = true → le a c = true)
    (p : α → Bool) (a : α) (l : List α)
    (hs : l.Pairwise (fun x y => le x y = true))
    (H : p a = true → ∀ x ∈ l, le x a = false → p x = false) :
    (insertSorted le a l).filter p =
      l.filter p ++ (if p a then [a] else []) := by
  induction l with
  | nil =>
    by_cases hpa : p a <;> simp [insertSorted, List.filter, hpa]
  | cons b l ih =>
    rcases List.pairwise_cons.mp hs with ⟨hb, hl⟩
    by_cases h : le b a
    · rw [insertSorted, if_pos h]
      have H' : p a = true → ∀ x ∈ l, le x a = false → p x = false := by
        intro hpa x hx hle
        exact H hpa x (List.mem_cons_of_mem b hx) hle
      by_cases hpb : p b <;>
        simp [List.filter_cons, hpb, ih hl H']
    · rw [insertSorted, if_neg h]
      by_cases hpa : p a
      · have hfalse : ∀ x ∈ b :: l, p x = false := by
          intro x hx
          rcases List.mem_cons.mp hx with h1 | h1
          · subst h1
            exact H hpa x (List.mem_cons_self x l) (Bool.eq_false_iff.mpr h)
          · have hxa : le x a = false := by
              by_contra hcontra
              have hxa' : le x a = true := by
                cases hle : le x a
                · exact absurd hle hcontra
                · rfl
              exact h (htrans b x a (hb x h1) hxa')
            exact H hpa x hx hxa
        have hnil : (b :: l).filter p = [] := by
          rw [List.filter_eq_nil]
          intro x hx
          simp [hfalse x hx]
        simp [List.filter_cons, hpa, hnil]
      · simp [List.filter_cons, hpa]

theorem filter_stableSortAux {α : Type} (le : α → α → Bool)
    (htrans : ∀ a b c, le a b = true → le b c = true → le a c = true)
    (htotal : ∀ a b, le a b = true ∨ le b a = true) (p : α → Bool)
    (Hp : ∀ x y, p x = true → le y x = false → p y = false) (l : List α) :
    ∀ acc : List α, acc.Pairwise (fun x y => le x y = true) →
      (stableSortAux le acc l).filter p = acc.filter p ++ l.filter p := by
  induction l with
  | nil => intro acc _; simp [stableSortAux]
  | cons a l ih =>
    intro acc hacc
    rw [stableSortAux,
      ih _ (insertSorted_sorted le htrans htotal a acc hacc),
      filter_insertSorted le htrans p a acc hacc
        (fun hpa x _ hle => Hp a x hpa hle)]
    by_cases hpa : p a <;> simp [List.filter_cons, hpa]

/-- Stability: the sort preserves the relative order (in fact the exact
subsequence) of the elements selected by any predicate that is closed
downward under strict order, e.g. the elements sharing one key value. -/
theorem filter_stableSort {α : Type} (le : α → α → Bool)
    (htrans : ∀ a b c, le a b = true → le b c = true → le a c = true)
    (htotal : ∀ a b, le a b = true ∨ le b a = true) (p : α → Bool)
    (Hp : ∀ x y, p x = true → le y x = false → p y = false) (l : List α) :
    (stableSort le l).filter p = l.filter p := by
  simpa [stableSort] using
    filter_stableSortAux le htrans htotal p Hp l [] List.Pairwise.nil

end StableSort

/- ====================================================================
SECTION: Pass Generator and Schedule Generator
(src/Scheduler/Pass_Generator.py find_visibility_windows,
 src/Scheduler/Schedule_Generator.py generate_schedule per-FU build)

The skyfield calls (satellite.find_events, altaz) are the external
visibility oracle; the repository code consumes their event stream.  An
event is modelled as its kind (0 = AOS, 1 = MAX, 2 = LOS) together with
the local ISO timestamp string derived from it and the rounded elevation
reading used at culmination.  The window and pass records are Python
dicts with dynamic keys, modelled as association lists over a value type
of strings and integers.
==================================================================== -/

namespace Scheduler

open Util StableSort

inductive Val where
  | str : String → Val
  | int : Int → Val
deriving DecidableEq

abbrev Dict := List (String × Val)

/-- One entry of zip(times, events) from satellite.find_events, with the
derived IST ISO timestamp and the altaz elevation reading. -/
structure Ev where
  t_iso : String
  kind : Nat
  alt : Int
deriving DecidableEq

/-- The event loop of find_visibility_windows, with `current` the window
under construction (None between LOS and the next AOS): an AOS event opens
a fresh window dict, a MAX event adds max_elevation_deg to an open window,
a LOS event adds end_time and emits the window. -/
def fvwAux : List Ev → Option Dict → List Dict
  | [], _ => []
  | e :: rest, none =>
    if e.kind = 0 then
      fvwAux rest (some [("start_time", Val.str e.t_iso)])
    else
      fvwAux rest none
  | e :: rest, some c =>
    if e.kind = 0 then
      fvwAux rest (some [("start_time", Val.str e.t_iso)])
    else if e.kind = 1 then
      fvwAux rest (some (dictSet c "max_elevation_deg" (Val.int e.alt)))
    else if e.kind = 2 then
      dictSet c "end_time" (Val.str e.t_iso) :: fvwAux rest none
    else
      fvwAux rest (some c)

/-- Pass_Generator.find_visibility_windows on the oracle's event stream. -/
def find_visibility_windows (events : List Ev) : List Dict :=
  fvwAux events none

/-- One satellite record of data/tles.json: name, line1, line2. -/
structure Sat where
  name : String
  line1 : String
  line2 : String
deriving DecidableEq

/-- p.update with fu_id, norad_id and satellite, in that key order
(Schedule_Generator.generate_schedule, per-pass enrichment). -/
def updColumns (fuId norad satName : String) (p : Dict) : Dict :=
  dictSet (dictSet (dictSet p "fu_id" (Val.str fuId))
    "norad_id" (Val.str norad)) "satellite" (Val.str satName)

/-- The sort key lambda x: x["start_time"] (always a string on generated
records). -/
def startKey (p : Dict) : String :=
  match dictGet p "start_time" with
  | some (Val.str s) => s
  | _ => ""

def startLe (a b : Dict) : Bool := decide (startKey a ≤ startKey b)

/-- The per-FU part of generate_schedule: for each satellite take the
provider's windows, enrich each with fu_id/norad_id/satellite, collect,
and sort the collected list ascending by start_time (list.sort is stable). -/
def build_fu_schedule (oracle : Sat → List Ev) (fuId : String)
    (sats : List (String × Sat)) : List Dict :=
  stableSort startLe
    ((sats.map (fun e =>
      (find_visibility_windows (oracle e.2)).map
        (updColumns fuId e.1 e.2.name))).flatten)

theorem keys_dictSet_subset {β : Type} (m : List (String × β))
    (k : String) (v : β) :
    ∀ x ∈ (dictSet m k v).map (·.1), x = k ∨ x ∈ m.map (·.1) := by
  induction m with
  | nil => intro x hx; simp [dictSet] at hx; exact Or.inl hx
  | cons e rest ih =>
    intro x hx
    by_cases h : e.1 = k
    · rw [dictSet, if_pos h] at hx
      rcases List.mem_cons.mp hx with h1 | h1
      · exact Or.inl h1
      · exact Or.inr (List.mem_cons_of_mem _ h1)
    · rw [dictSet, if_neg h] at hx
      rcases List.mem_cons.mp hx with h1 | h1
      · exact Or.inr (by simp [h1])
      · rcases ih x h1 with h2 | h2
        · exact Or.inl h2
        · exact Or.inr (List.mem_cons_of_mem _ h2)

/-- Every key of a generated visibility window is one of start_time,
max_elevation_deg, end_time. -/
theorem fvwAux_keys (events : List Ev) :
    ∀ cur : Option Dict,
      (∀ c, cur = some c → ∀ x ∈ c.map (·.1),
        x = "start_time" ∨ x = "max_elevation_deg") →
      ∀ w ∈ fvwAux events cur, ∀ x ∈ w.map (·.1),
        x = "start_time" ∨ x = "max_elevation_deg" ∨ x = "end_time" := by
  induction events with
  | nil => intro cur _ w hw; cases hw
  | cons e rest ih =>
    intro cur hcur w hw
    have hfresh : ∀ c, some [("start_time", Val.str e.t_iso)] = some c →
        ∀ x ∈ c.map (·.1), x = "start_time" ∨ x = "max_elevation_deg" := by
      intro c hc x hx
      cases hc
      simp at hx
      exact Or.inl hx
    have hnone : ∀ c, (none : Option Dict) = some c →
        ∀ x ∈ c.map (·.1), x = "start_time" ∨ x = "max_elevation_deg" := by
      intro c hc; cases hc
    cases cur with
    | none =>
      by_cases h0 : e.kind = 0
      · rw [fvwAux, if_pos h0] at hw
        exact ih _ hfresh w hw
      · rw [fvwAux, if_neg h0] at hw
        exact ih _ hnone w hw
    | some c =>
      by_cases h0 : e.kind = 0
      · rw [fvwAux, if_pos h0] at hw
        exact ih _ hfresh w hw
      · by_cases h1 : e.kind = 1
        · rw [fvwAux, if_neg h0, if_pos h1] at hw
          refine ih _ ?_ w hw
          intro c' hc' x hx
          cases hc'
          rcases keys_dictSet_subset c "max_elevation_deg" (Val.int e.alt)
            x hx with h2 | h2
          · exact Or.inr h2
          · exact hcur c rfl x h2
        · by_cases h2 : e.kind = 2
          · rw [fvwAux, if_neg h0, if_neg h1, if_pos h2] at hw
            rcases List.mem_cons.mp hw with h3 | h3
            · subst h3
              intro x hx
              rcases keys_dictSet_subset c "end_time" (Val.str e.t_iso)
                x hx with h4 | h4
              · exact Or.inr (Or.inr h4)
              · rcases hcur c rfl x h4 with h5 | h5
                · exact Or.inl h5
                · exact Or.inr (Or.inl h5)
            · exact ih _ hnone w h3
          · rw [fvwAux, if_neg h0, if_neg h1, if_neg h2] at hw
            exact ih _ (by intro c' hc'; cases hc'; exact hcur c rfl) w hw

theorem find_visibility_windows_keys (events : List Ev) :
    ∀ w ∈ find_visibility_windows events, ∀ x ∈ w.map (·.1),
      x = "start_time" ∨ x = "max_elevation_deg" ∨ x = "end_time" :=
  fvwAux_keys events none (by intro c hc; cases hc)

theorem keys_updColumns_subset (fuId norad satName : String) (p : Dict) :
    ∀ x ∈ (updColumns fuId norad satName p).map (·.1),
      x = "satellite" ∨ x = "norad_id" ∨ x = "fu_id" ∨
        x ∈ p.map (·.1) := by
  intro x hx
  rcases keys_dictSet_subset _ "satellite" (Val.str satName) x hx with
    h | h
  · exact Or.inl h
  · rcases keys_dictSet_subset _ "norad_id" (Val.str norad) x h with
      h1 | h1
    · exact Or.inr (Or.inl h1)
    · rcases keys_dictSet_subset _ "fu_id" (Val.str fuId) x h1 with
        h2 | h2
      · exact Or.inr (Or.inr (Or.inl h2))
      · exact Or.inr (Or.inr (Or.inr h2))

theorem dictGet_updColumns_fuId (fuId norad satName : String) (p : Dict) :
    dictGet (updColumns fuId norad satName p) "fu_id" =
      some (Val.str fuId) := by
  unfold updColumns
  rw [dictGet_dictSet_ne _ _ _ _ (by decide),
    dictGet_dictSet_ne _ _ _ _ (by decide), dictGet_dictSet_self]

theorem dictGet_updColumns_other (fuId norad satName : String) (p : Dict)
    (k : String) (h1 : k ≠ "satellite") (h2 : k ≠ "norad_id")
    (h3 : k ≠ "fu_id") :
    dictGet (updColumns fuId norad satName p) k = dictGet p k := by
  unfold updColumns
  rw [dictGet_dictSet_ne _ _ _ _ h1, dictGet_dictSet_ne _ _ _ _ h2,
    dictGet_dictSet_ne _ _ _ _ h3]

theorem startLe_trans : ∀ a b c : Dict, startLe a b = true →
    startLe b c = true → startLe a c = true := by
  intro a b c hab hbc
  simp only [startLe, decide_eq_true_eq] at *
  exact le_trans hab hbc

theorem startLe_total : ∀ a b : Dict,
    startLe a b = true ∨ startLe b a = true := by
  intro a b
  rcases le_total (startKey a) (startKey b) with h | h
  · exact Or.inl (by simp [startLe, h])
  · exact Or.inr (by simp [startLe, h])

theorem startKey_closed (s : String) : ∀ x y : Dict,
    (startKey x == s) = true → startLe y x = false →
    (startKey y == s) = false := by
  intro x y hx hyx
  have hx' : startKey x = s := by simpa using hx
  have hyx' : ¬ startKey y ≤ startKey x := by
    intro h
    rw [show startLe y x = decide (startKey y ≤ startKey x) from rfl] at hyx
    simp [h] at hyx
  have : startKey y ≠ s := by
    intro h
    exact hyx' (by rw [h, ← hx'])
  simpa using this

/-- Claim C7 (amended): under the Schedule Generator, each visibility window
returned by the provider for a FU with a known location becomes a record in
that FU's schedule list that copies the window's start_time, end_time and
max_elevation_deg and adds fu_id (the FU being planned for), norad_id and
satellite name.  Contrary to the original claim, the record carries NO
freshly generated activity id, NO kind/type field and NO state field
(nothing marks it TRACK or PLANNED).  The per-FU list is sorted ascending
by start_time with a stable sort: it is sorted, it is a permutation of the
generated records, and for each start-time value it keeps the records in
their generation order. -/
theorem c7_planner_records (oracle : Sat → List Ev) (fuId : String)
    (sats : List (String × Sat)) :
    (build_fu_schedule oracle fuId sats).Pairwise
      (fun a b => startKey a ≤ startKey b) ∧
    (build_fu_schedule oracle fuId sats).Perm
      ((sats.map (fun e => (find_visibility_windows (oracle e.2)).map
        (updColumns fuId e.1 e.2.name))).flatten) ∧
    (∀ s : String,
      (build_fu_schedule oracle fuId sats).filter
          (fun q => startKey q == s) =
        ((sats.map (fun e => (find_visibility_windows (oracle e.2)).map
          (updColumns fuId e.1 e.2.name))).flatten).filter
          (fun q => startKey q == s)) ∧
    (∀ p ∈ build_fu_schedule oracle fuId sats,
      dictGet p "activity_id" = none ∧ dictGet p "type" = none ∧
      dictGet p "state" = none ∧ dictGet p "fu_id" = some (Val.str fuId) ∧
      ∃ nid sat w, (nid, sat) ∈ sats ∧
        w ∈ find_visibility_windows (oracle sat) ∧
        p = updColumns fuId nid sat.name w ∧
        dictGet p "start_time" = dictGet w "start_time" ∧
        dictGet p "end_time" = dictGet w "end_time" ∧
        dictGet p "max_elevation_deg" = dictGet w "max_elevation_deg") := by
  refine ⟨?_, ?_, ?_, ?_⟩
  · have h := StableSort.stableSort_sorted startLe startLe_trans
      startLe_total ((sats.map (fun e =>
        (find_visibility_windows (oracle e.2)).map
          (updColumns fuId e.1 e.2.name))).flatten)
    exact h.imp (fun hab => by
      simpa [startLe, decide_eq_true_eq] using hab)
  · exact StableSort.stableSort_perm _ _
  · intro s
    exact StableSort.filter_stableSort startLe startLe_trans startLe_total
      _ (startKey_closed s) _
  · intro p hp
    have hpmem : p ∈ (sats.map (fun e =>
        (find_visibility_windows (oracle e.2)).map
          (updColumns fuId e.1 e.2.name))).flatten :=
      (StableSort.stableSort_perm _ _).mem_iff.mp hp
    rw [List.mem_flatten] at hpmem
    obtain ⟨l, hl, hpl⟩ := hpmem
    rw [List.mem_map] at hl
    obtain ⟨e, he, rfl⟩ := hl
    rw [List.mem_map] at hpl
    obtain ⟨w, hw, rfl⟩ := hpl
    have hwkeys := find_visibility_windows_keys (oracle e.2) w hw
    have hnone : ∀ k : String, k ≠ "start_time" →
        k ≠ "max_elevation_deg" → k ≠ "end_time" → dictGet w k = none := by
      intro k hk1 hk2 hk3
      apply dictGet_eq_none
      intro hmem
      rcases hwkeys k hmem with h | h | h
      · exact hk1 h
      · exact hk2 h
      · exact hk3 h
    refine ⟨?_, ?_, ?_, dictGet_updColumns_fuId _ _ _ _,
      e.1, e.2, w, by simpa using he, hw, rfl, ?_, ?_, ?_⟩
    · rw [dictGet_updColumns_other _ _ _ _ _ (by decide) (by decide)
        (by decide)]
      exact hnone _ (by decide) (by decide) (by decide)
    · rw [dictGet_updColumns_other _ _ _ _ _ (by decide) (by decide)
        (by decide)]
      exact hnone _ (by decide) (by decide) (by decide)
    · rw [dictGet_updColumns_other _ _ _ _ _ (by decide) (by decide)
        (by decide)]
      exact hnone _ (by decide) (by decide) (by decide)
    · exact dictGet_updColumns_other _ _ _ _ _ (by decide) (by decide)
        (by decide)
    · exact dictGet_updColumns_other _ _ _ _ _ (by decide) (by decide)
        (by decide)
    · exact dictGet_updColumns_other _ _ _ _ _ (by decide) (by decide)
        (by decide)

/-- Concrete event stream: one AOS, one MAX at 45 degrees, one LOS. -/
def exEvents : List Ev :=
  [⟨"2025-01-01T10:00:00+05:30", 0, 45⟩,
   ⟨"2025-01-01T10:05:00+05:30", 1, 45⟩,
   ⟨"2025-01-01T10:10:00+05:30", 2, 45⟩]

def exSats : List (String × Sat) := [("25544", ⟨"ISS", "L1", "L2"⟩)]

/-- The record generate_schedule produces from the window of exEvents. -/
def exRecord : Dict :=
  [("start_time", Val.str "2025-01-01T10:00:00+05:30"),
   ("max_elevation_deg", Val.int 45),
   ("end_time", Val.str "2025-01-01T10:10:00+05:30"),
   ("fu_id", Val.str "FU-A"),
   ("norad_id", Val.str "25544"),
   ("satellite", Val.str "ISS")]

/-- Claim C7 counterexample: the record built from a concrete visibility
window has no activity_id key, no type/kind key and no state key at all, so
it is not "a new Activity record carrying a freshly generated unique id,
kind TRACK, state PLANNED" as the claim states: those fields are never
attached by Schedule_Generator.generate_schedule. -/
theorem c7_counterexample :
    build_fu_schedule (fun _ => exEvents) "FU-A" exSats = [exRecord] ∧
    dictGet exRecord "activity_id" = none ∧
    dictGet exRecord "type" = none ∧
    dictGet exRecord "state" = none := by
  refine ⟨by decide, by decide, by decide, by decide⟩

/-- Witness for c7_planner_records at a concrete input. -/
theorem c7_planner_records_witness :
    exRecord ∈ build_fu_schedule (fun _ => exEvents) "FU-A" exSats ∧
    dictGet exRecord "state" = none ∧
    dictGet exRecord "fu_id" = some (Val.str "FU-A") :=
  ⟨by decide,
    ((c7_planner_records (fun _ => exEvents) "FU-A" exSats).2.2.2 exRecord
      (by decide)).2.2.1,
    ((c7_planner_records (fun _ => exEvents) "FU-A" exSats).2.2.2 exRecord
      (by decide)).2.2.2.1⟩

end Scheduler

/- ====================================================================
SECTION: regeneration control
(src/Server.py run_scheduler, write_active_fus_for_scheduler,
 load_assignments; src/Scheduler/Schedule_Generator.py generate_schedule;
 src/Assigner.py assign_passes file-level behaviour)

The data files are modelled as a record of optional contents (None =
file absent).  generate_schedule raises FileNotFoundError before any
write when data/tles.json or data/active_fus.json is absent; the Except
monad models the raised exception, which run_scheduler's except-branch
turns into the "error" result.  Server.run_scheduler's try/finally
resets the running flag on both exits.
==================================================================== -/

namespace ServerSched

open Util

/-- One per-FU block of data/schedule.json as written by generate_schedule:
fu_id, location, generated_at, schedule (the sorted pass records). -/
structure FuBlock where
  fu_id : String
  location : Option (Int × Int)
  generated_at : String
  schedule : List Scheduler.Dict
deriving DecidableEq

/-- The data files the regeneration pipeline reads and writes. -/
structure FS where
  tles : Option (List (String × Scheduler.Sat))
  activeFus : Option (List (String × Option (Int × Int)))
  scheduleFile : Option (List (String × FuBlock))
  assignmentsFile : Option (List (String × List Scheduler.Dict))
deriving DecidableEq

/-- Assigner.assign_passes at file level: early return (no write) when
schedule.json or active_fus.json is absent, when there is no active FU or
when there is no pass; otherwise flatten every block's schedule and write
the round-robin assignment to assignments.json. -/
def assign_passes_file (fs : FS) : FS :=
  match fs.scheduleFile, fs.activeFus with
  | some sched, some fus =>
    let fuIds := fus.map (·.1)
    if fuIds.isEmpty then fs
    else
      let allPasses := (sched.map (fun e => e.2.schedule)).flatten
      if allPasses.isEmpty then fs
      else
        { fs with
          assignmentsFile := some (Assigner.assign_passes fuIds allPasses) }
  | _, _ => fs

/-- Schedule_Generator.generate_schedule: raise FileNotFoundError when
data/tles.json or data/active_fus.json is absent (before any write);
otherwise build one FuBlock per located FU (FUs without location are
skipped with a warning), write data/schedule.json, then run the assignment
phase.  genTime stands for datetime.now(IST).isoformat(). -/
def generate_schedule
    (oracle : (Int × Int) → Scheduler.Sat → List Scheduler.Ev)
    (genTime : String) (fs : FS) : Except String FS :=
  match fs.tles with
  | none => Except.error "satellites file missing"
  | some sats =>
    match fs.activeFus with
    | none => Except.error "active FUs file missing"
    | some fus =>
      let full := fus.filterMap (fun e =>
        match e.2 with
        | none => none
        | some loc => some (e.1,
            { fu_id := e.1, location := some loc, generated_at := genTime,
              schedule :=
                Scheduler.build_fu_schedule (oracle loc) e.1 sats }))
      Except.ok (assign_passes_file { fs with scheduleFile := some full })

/-- SCHEDULER_STATE of Server.py. -/
structure SchedulerCtl where
  running : Bool
  last_run : Option Int
deriving DecidableEq

/-- Server.write_active_fus_for_scheduler: write to data/active_fus.json
every registered FU that has a location (here the registry is abstracted
to fu_id with optional location, the only fields this function reads). -/
def write_active_fus (fs : FS)
    (registry : List (String × Option (Int × Int))) : FS :=
  { fs with activeFus := some (registry.filterMap (fun e =>
      e.2.map (fun loc => (e.1, some loc)))) }

/-- Server.load_assignments: reload SCHEDULE_CACHE from data/schedule.json
(empty when the file is absent). -/
def load_assignments (fs : FS) : List (String × FuBlock) :=
  fs.scheduleFile.getD []

/-- Server.run_scheduler: reject with "busy" while a run is in flight;
otherwise set the running flag, write the active-FU file, generate, reload
the cache and record last_run on success, report "error" on an exception;
the finally-block resets the running flag on every exit of a started run.
Returns (status, SCHEDULER_STATE, SCHEDULE_CACHE, files). -/
def run_scheduler
    (oracle : (Int × Int) → Scheduler.Sat → List Scheduler.Ev)
    (genTime : String) (now : Int)
    (registry : List (String × Option (Int × Int))) (st : SchedulerCtl)
    (cache : List (String × FuBlock)) (fs : FS) :
    String × SchedulerCtl × List (String × FuBlock) × FS :=
  if st.running then ("busy", st, cache, fs)
  else
    let fs1 := write_active_fus fs registry
    match generate_schedule oracle genTime fs1 with
    | Except.ok fs2 =>
      ("ok", { running := false, last_run := some now },
        load_assignments fs2, fs2)
    | Except.error _ =>
      ("error", { st with running := false }, cache, fs1)

/-- Claim C5: the trigger-regeneration operation is exclusive: while a run
is in flight any further trigger returns "busy" immediately, starting
nothing and mutating neither the scheduler state, the cache nor the files;
and on every exit path of a started run (generation success or failure)
the running flag ends up false. -/
theorem c5_run_scheduler_exclusive
    (oracle : (Int × Int) → Scheduler.Sat → List Scheduler.Ev)
    (genTime : String) (now : Int)
    (registry : List (String × Option (Int × Int))) (st : SchedulerCtl)
    (cache : List (String × FuBlock)) (fs : FS) :
    (st.running = true →
      run_scheduler oracle genTime now registry st cache fs =
        ("busy", st, cache, fs)) ∧
    (st.running = false →
      (run_scheduler oracle genTime now registry st cache fs).2.1.running =
        false) := by
  constructor
  · intro h
    simp [run_scheduler, h]
  · intro h
    rcases hgen : generate_schedule oracle genTime
        (write_active_fus fs registry) with err | fs2 <;>
      simp [run_scheduler, h, hgen]

/-- Witness for c5_run_scheduler_exclusive at a concrete input. -/
theorem c5_run_scheduler_exclusive_witness :
    run_scheduler (fun _ _ => []) "t0" 0 [] ⟨true, none⟩ []
        ⟨none, none, none, none⟩ =
      ("busy", ⟨true, none⟩, [], ⟨none, none, none, none⟩) ∧
    (run_scheduler (fun _ _ => []) "t0" 0 [] ⟨false, none⟩ []
        ⟨none, none, none, none⟩).2.1.running = false :=
  ⟨(c5_run_scheduler_exclusive (fun _ _ => []) "t0" 0 [] ⟨true, none⟩ []
      ⟨none, none, none, none⟩).1 rfl,
    (c5_run_scheduler_exclusive (fun _ _ => []) "t0" 0 [] ⟨false, none⟩ []
      ⟨none, none, none, none⟩).2 rfl⟩

/-- Claim C6: when a regeneration run fails because required input data is
missing (the orbital-element file at generation time; the FU location file
is rewritten by the trigger itself just before generation), the trigger
returns status "error" and both the persisted Schedule file and the
in-memory schedule cache are retained unmodified. -/
theorem c6_error_retains_schedule
    (oracle : (Int × Int) → Scheduler.Sat → List Scheduler.Ev)
    (genTime : String) (now : Int)
    (registry : List (String × Option (Int × Int))) (st : SchedulerCtl)
    (cache : List (String × FuBlock)) (fs : FS)
    (hidle : st.running = false) (htles : fs.tles = none) :
    (run_scheduler oracle genTime now registry st cache fs).1 = "error" ∧
    (run_scheduler oracle genTime now registry st cache fs).2.2.1 =
      cache ∧
    (run_scheduler oracle genTime now registry st cache
        fs).2.2.2.scheduleFile = fs.scheduleFile := by
  have hgen : generate_schedule oracle genTime
      (write_active_fus fs registry) =
      Except.error "satellites file missing" := by
    simp [generate_schedule, write_active_fus, htles]
  simp only [run_scheduler, hidle]
  rw [hgen]
  simp [write_active_fus]

/-- Witness for c6_error_retains_schedule at a concrete input. -/
theorem c6_error_retains_schedule_witness :
    (run_scheduler (fun _ _ => []) "t0" 0 [] ⟨false, none⟩ []
        ⟨none, none, none, none⟩).1 = "error" ∧
    (run_scheduler (fun _ _ => []) "t0" 0 [] ⟨false, none⟩ []
        ⟨none, none, none, none⟩).2.2.1 = [] ∧
    (run_scheduler (fun _ _ => []) "t0" 0 [] ⟨false, none⟩ []
        ⟨none, none, none, none⟩).2.2.2.scheduleFile = none :=
  c6_error_retains_schedule (fun _ _ => []) "t0" 0 [] ⟨false, none⟩ []
    ⟨none, none, none, none⟩ rfl rfl

end ServerSched

/- ====================================================================
SECTION: Server in-memory state and the Activity Execution Engine
(src/Server.py: fu_status, disconnect, create_custom_tracking,
 activity_executor)

FU_REGISTRY, SCHEDULE_CACHE and ACTIVITY_STATE are Python dicts, modelled
as association lists with dict semantics.  One executor iteration of the
while-loop is `tick`: the activation scan over SCHEDULE_CACHE followed by
the completion scan over a snapshot of ACTIVITY_STATE.  ISO timestamps
(iso_to_epoch) are modelled by their epoch value (Int).  The in-place
mutation of the activity dict aliased from ACTIVITY_STATE["activity"] is
modelled as an update of every schedule record with the same activity_id,
which coincides with the Python behaviour whenever activity ids are
unique (uuid4-generated in the source).
==================================================================== -/

namespace Server

open Util

/-- One FU_REGISTRY record, exactly the dict literal built by fu_status. -/
structure FuRec where
  fu_id : String
  state : String
  health : String
  mode : String
  az : Option Int
  el : Option Int
  location : Option (Int × Int)
  last_seen : Int
  current_pass : Option String
deriving DecidableEq

/-- An incoming fu_status payload: data.get(...) of each field. -/
structure StatusMsg where
  fu_id : String
  state : Option String
  health : Option String
  mode : Option String
  az : Option Int
  el : Option Int
  location : Option (Int × Int)
  current_pass : Option String
deriving DecidableEq

/-- The record literal of the fu_status handler: defaults IDLE / OK / AUTO,
last_seen = time.time(), everything else copied from the message. -/
def mkFuRecord (d : StatusMsg) (now : Int) : FuRec :=
  { fu_id := d.fu_id
  , state := d.state.getD "IDLE"
  , health := d.health.getD "OK"
  , mode := d.mode.getD "AUTO"
  , az := d.az
  , el := d.el
  , location := d.location
  , last_seen := now
  , current_pass := d.current_pass }

/-- The fu_status handler: FU_REGISTRY[fu_id] = { ...fresh record... }. -/
def fu_status (registry : List (String × FuRec)) (d : StatusMsg)
    (now : Int) : List (String × FuRec) :=
  dictSet registry d.fu_id (mkFuRecord d now)

/-- The disconnect handler: `bound` is SID_TO_FU.pop(sid, None); when a FU
is bound and registered its state and health are forced OFFLINE / ERROR. -/
def on_disconnect (registry : List (String × FuRec))
    (bound : Option String) : List (String × FuRec) :=
  match bound with
  | none => registry
  | some fid =>
    match dictGet registry fid with
    | none => registry
    | some fu =>
      dictSet registry fid { fu with state := "OFFLINE", health := "ERROR" }

/-- A SCHEDULE_CACHE activity record with the fields the server reads and
writes (start_time/end_time stored as their epoch values). -/
structure Activity where
  activity_id : String
  satellite : String
  norad_id : Int
  type : String
  start_time : Int
  end_time : Int
  state : String
deriving DecidableEq

/-- One ACTIVITY_STATE entry: fu_id, started_at, and the end_time read
through the aliased activity dict (end_time is never mutated). -/
structure Ctx where
  fu_id : String
  activity_id : String
  end_time : Int
  started_at : Int
deriving DecidableEq

/-- The three authoritative in-memory stores of Server.py. -/
structure ServerState where
  registry : List (String × FuRec)
  schedule : List (String × List Activity)
  activityState : List (String × Ctx)
deriving DecidableEq

/-- The inner activation loop over one FU's activity list: every PLANNED
activity whose window contains now becomes ACTIVE and contributes an
ACTIVITY_STATE entry (the loop has no break and does not re-check the FU
state after an activation). -/
def activateActs (now : Int) (fuId : String) :
    List Activity → List Activity × List Ctx
  | [] => ([], [])
  | a :: rest =>
    let r := activateActs now fuId rest
    if a.state = "PLANNED" ∧ a.start_time ≤ now ∧ now ≤ a.end_time then
      ({ a with state := "ACTIVE" } :: r.1,
        { fu_id := fuId, activity_id := a.activity_id,
          end_time := a.end_time, started_at := now } :: r.2)
    else (a :: r.1, r.2)

/-- The value of fu["current_pass"] after the inner loop: the id of the
last activated activity (each activation overwrites it). -/
def lastId (ctxs : List Ctx) : Option String :=
  (ctxs.map (·.activity_id)).getLast?

/-- The outer activation scan over SCHEDULE_CACHE: skip FUs that are not
registered or not IDLE; otherwise run the inner loop, insert the new
ACTIVITY_STATE entries, and if anything was activated set the FU record to
BUSY with current_pass the last activated id. -/
def activateFold (now : Int) :
    List (String × List Activity) → List (String × FuRec) →
      List (String × Ctx) →
      List (String × List Activity) ×
        List (String × FuRec) × List (String × Ctx)
  | [], reg, actSt => ([], reg, actSt)
  | (fuId, acts) :: rest, reg, actSt =>
    match dictGet reg fuId with
    | none =>
      let r := activateFold now rest reg actSt
      ((fuId, acts) :: r.1, r.2)
    | some fu =>
      if fu.state = "IDLE" then
        let pr := activateActs now fuId acts
        let actSt1 := pr.2.foldl (fun m c => dictSet m c.activity_id c) actSt
        let reg1 :=
          match lastId pr.2 with
          | none => reg
          | some lid =>
            dictSet reg fuId
              { fu with state := "BUSY", current_pass := some lid }
        let r := activateFold now rest reg1 actSt1
        ((fuId, pr.1) :: r.1, r.2)
      else
        let r := activateFold now rest reg actSt
        ((fuId, acts) :: r.1, r.2)

/-- First half of one executor tick. -/
def activatePhase (now : Int) (s : ServerState) : ServerState :=
  let r := activateFold now s.schedule s.registry s.activityState
  { registry := r.2.1, schedule := r.1, activityState := r.2.2 }

/-- activity["state"] = "COMPLETED" through the ACTIVITY_STATE alias:
update the schedule record(s) carrying that activity id. -/
def setActivityCompleted (sched : List (String × List Activity))
    (aid : String) : List (String × List Activity) :=
  sched.map (fun e => (e.1, e.2.map (fun a =>
    if a.activity_id = aid then { a with state := "COMPLETED" } else a)))

/-- The completion scan over list(ACTIVITY_STATE.items()): every entry whose
end_time has passed is completed, popped, and its FU (when registered) is
set back to IDLE with current_pass cleared. -/
def completeFold (now : Int) :
    List (String × Ctx) → ServerState → ServerState
  | [], s => s
  | (aid, c) :: rest, s =>
    if c.end_time < now then
      completeFold now rest
        { registry :=
            match dictGet s.registry c.fu_id with
            | none => s.registry
            | some fu =>
              dictSet s.registry c.fu_id
                { fu with state := "IDLE", current_pass := none }
        , schedule := setActivityCompleted s.schedule aid
        , activityState := dictRemove s.activityState aid }
    else completeFold now rest s

/-- Second half of one executor tick. -/
def completePhase (now : Int) (s : ServerState) : ServerState :=
  completeFold now s.activityState s

/-- One iteration of the activity_executor while-loop at time now. -/
def tick (now : Int) (s : ServerState) : ServerState :=
  completePhase now (activatePhase now s)

/-- n executor iterations at the times τ 0, τ 1, ..., τ (n-1). -/
def iterTicks (τ : Nat → Int) : Nat → ServerState → ServerState
  | 0, s => s
  | n + 1, s => iterTicks (fun i => τ (i + 1)) n (tick (τ 0) s)

/-- The activity dict built by the create_custom_tracking route. -/
def customAct (noradId : Int) (startT endT : Int) (newId : String) :
    Activity :=
  { activity_id := newId
  , satellite := "CAT-" ++ toString noradId
  , norad_id := noradId
  , type := "CUSTOM_TRACK"
  , start_time := startT
  , end_time := endT
  , state := "PLANNED" }

/-- The create_custom_tracking route: build a CUSTOM_TRACK activity in state
PLANNED with the freshly generated id and append it to the FU's entry of
SCHEDULE_CACHE (setdefault semantics). -/
def create_custom_tracking (s : ServerState) (fuId : String)
    (noradId : Int) (startT endT : Int) (newId : String) : ServerState :=
  { s with schedule :=
      if (s.schedule.map (·.1)).contains fuId then
        s.schedule.map (fun e =>
          (e.1, if e.1 = fuId then
            e.2 ++ [customAct noradId startT endT newId] else e.2))
      else s.schedule ++ [(fuId, [customAct noradId startT endT newId])] }

/-- First schedule record with the given activity id, scanning the cache
in order. -/
def findActivity : List (String × List Activity) → String → Option Activity
  | [], _ => none
  | (_, acts) :: rest, aid =>
    match acts.find? (fun a => a.activity_id == aid) with
    | some a => some a
    | none => findActivity rest aid

/-- Whether some activity owned by the FU (its SCHEDULE_CACHE entry) is
ACTIVE. -/
def hasActiveActivity (s : ServerState) (fid : String) : Bool :=
  ((dictGet s.schedule fid).getD []).any (fun a => a.state == "ACTIVE")

/-- Claim C9: every accepted heartbeat replaces the FieldUnit record
wholesale: after fu_status runs, the stored record is exactly the one built
from the incoming message (state defaulting to IDLE, health to OK, mode to
AUTO, current_pass to the message's value) with last_seen = now, and no
field of the prior record survives: the stored record does not depend on
the prior registry at all, so state=BUSY and current_activity written by
the Execution Engine are overwritten by the next heartbeat. -/
theorem c9_heartbeat_replaces (registry : List (String × FuRec))
    (d : StatusMsg) (now : Int) :
    dictGet (fu_status registry d now) d.fu_id = some (mkFuRecord d now) ∧
    ∀ reg2 : List (String × FuRec),
      dictGet (fu_status registry d now) d.fu_id =
        dictGet (fu_status reg2 d now) d.fu_id := by
  constructor
  · exact dictGet_dictSet_self registry d.fu_id (mkFuRecord d now)
  · intro reg2
    rw [fu_status, fu_status, dictGet_dictSet_self, dictGet_dictSet_self]

def c1Fu : FuRec := ⟨"FU-A", "IDLE", "OK", "AUTO", none, none, none, 0, none⟩

def c1Act1 : Activity := ⟨"a1", "SAT-1", 1, "TRACK", 0, 100, "PLANNED"⟩

def c1Act2 : Activity := ⟨"a2", "SAT-2", 2, "TRACK", 0, 100, "PLANNED"⟩

def c1State : ServerState :=
  ⟨[("FU-A", c1Fu)], [("FU-A", [c1Act1, c1Act2])], []⟩

/-- Claim C1 is violated by the code: the activation loop checks the FU's
IDLE state once per FU per tick and has no break, so with two PLANNED
activities whose windows both contain now, a single tick moves BOTH
activities of the same FU to ACTIVE (the claim says only the first is
activated and a single tick never activates two). -/
theorem c1_double_activation :
    ((dictGet (tick 50 c1State).schedule "FU-A").getD []).countP
      (fun a => a.state == "ACTIVE") = 2 ∧
    (tick 50 c1State).activityState.length = 2 ∧
    (dictGet (tick 50 c1State).registry "FU-A").map (·.state) =
      some "BUSY" := by
  refine ⟨by decide, by decide, by decide⟩

def c2Msg : StatusMsg :=
  ⟨"FU-A", some "BUSY", none, none, none, none, none, none⟩

def c2State : ServerState := ⟨fu_status [] c2Msg 100, [], []⟩

/-- Claim C2 counterexample: one heartbeat reporting state=BUSY reaches a
state where the FU record is BUSY while no activity owned by that FU is
ACTIVE (the schedule is empty), so state == BUSY iff some-ACTIVE fails on a
state reachable by the heartbeat upsert. -/
theorem c2_busy_without_active_counterexample :
    (dictGet c2State.registry "FU-A").map (·.state) = some "BUSY" ∧
    hasActiveActivity c2State "FU-A" = false := by
  refine ⟨by decide, by decide⟩

def c3Msg : StatusMsg :=
  ⟨"FU-A", none, none, none, none, none, none, none⟩

def c3s1 : ServerState := ⟨fu_status [] c3Msg 0, [], []⟩

def c3s2 : ServerState := create_custom_tracking c3s1 "FU-A" 7 20 100 "act-1"

def c3s3 : ServerState := tick 50 c3s2

def c3s4 : ServerState :=
  { c3s3 with registry := on_disconnect c3s3.registry (some "FU-A") }

def c3s5 : ServerState := tick 200 c3s4

/-- Claim C3 counterexample: reachable run in which a FU heartbeats IDLE,
an activity is activated at t=50, the FU's transport session closes (state
OFFLINE), and the activity's window then expires: the tick at t=200
completes the activity and sets the FU state to IDLE, not OFFLINE — the
completion branch `if fu: fu["state"] = "IDLE"` ignores an OFFLINE state,
so "disconnect wins" does not hold in the code. -/
theorem c3_offline_overwritten_counterexample :
    (dictGet c3s4.registry "FU-A").map (·.state) = some "OFFLINE" ∧
    (findActivity c3s4.schedule "act-1").map (·.state) = some "ACTIVE" ∧
    (findActivity c3s5.schedule "act-1").map (·.state) = some "COMPLETED" ∧
    (dictGet c3s5.registry "FU-A").map (·.state) = some "IDLE" ∧
    ¬ (dictGet c3s5.registry "FU-A").map (·.state) = some "OFFLINE" := by
  refine ⟨by decide, by decide, by decide, by decide, by decide⟩

theorem dictGet_dictRemove_self {β : Type} (m : List (String × β))
    (k : String) : dictGet (dictRemove m k) k = none := by
  induction m with
  | nil => rfl
  | cons e rest ih =>
    by_cases h : e.1 = k
    · simpa [dictRemove, h] using ih
    · simpa [dictRemove, List.filter_cons, h, dictGet] using ih

theorem dictGet_dictRemove_ne {β : Type} (m : List (String × β))
    (k x : String) (h : x ≠ k) :
    dictGet (dictRemove m k) x = dictGet m x := by
  induction m with
  | nil => rfl
  | cons e rest ih =>
    obtain ⟨e1, e2⟩ := e
    by_cases he : e1 = k
    · have h1 : dictRemove ((e1, e2) :: rest) k = dictRemove rest k := by
        simp [dictRemove, List.filter_cons, he]
      have h2 : dictGet ((e1, e2) :: rest) x = dictGet rest x := by
        rw [dictGet, if_neg]
        rw [he]
        exact fun hh => h hh.symm
      rw [h1, h2]
      exact ih
    · have h1 : dictRemove ((e1, e2) :: rest) k =
          (e1, e2) :: dictRemove rest k := by
        simp [dictRemove, List.filter_cons, he]
      rw [h1]
      by_cases hx : e1 = x
      · simp [dictGet, hx]
      · simp only [dictGet, if_neg hx]
        exact ih

theorem dictGet_none_imp {β : Type} (m : List (String × β)) (k : String)
    (h : dictGet m k = none) : ∀ x ∈ m, x.1 ≠ k := by
  induction m with
  | nil => intro x hx; cases hx
  | cons e rest ih =>
    intro x hx
    by_cases he : e.1 = k
    · rw [dictGet, if_pos he] at h
      cases h
    · rw [dictGet, if_neg he] at h
      rcases List.mem_cons.mp hx with h1 | h1
      · subst h1; exact he
      · exact ih h x h1

theorem find_map_pres {α : Type} (p : α → Bool) (g : α → α)
    (hg : ∀ a, p (g a) = p a) (l : List α) :
    (l.map g).find? p = (l.find? p).map g := by
  induction l with
  | nil => rfl
  | cons a rest ih =>
    rw [List.map_cons, List.find?_cons, List.find?_cons, hg a]
    cases hpa : p a <;> simp [ih]

theorem findActivity_setCompleted_self
    (sched : List (String × List Activity)) (aid : String) :
    findActivity (setActivityCompleted sched aid) aid =
      (findActivity sched aid).map
        (fun a => { a with state := "COMPLETED" }) := by
  induction sched with
  | nil => rfl
  | cons e rest ih =>
    have hg : ∀ a : Activity,
        (((if a.activity_id = aid then { a with state := "COMPLETED" }
          else a).activity_id == aid)) = (a.activity_id == aid) := by
      intro a
      by_cases h : a.activity_id = aid <;> simp [h]
    simp only [setActivityCompleted, List.map_cons, findActivity]
    rw [find_map_pres _ _ hg]
    cases hfind : e.2.find? (fun a => a.activity_id == aid) with
    | none =>
      simpa [setActivityCompleted] using ih
    | some a =>
      have haid : a.activity_id = aid := by
        simpa using List.find?_some hfind
      simp [haid]

theorem findActivity_setCompleted_ne
    (sched : List (String × List Activity)) (aid aid' : String)
    (h : aid' ≠ aid) :
    findActivity (setActivityCompleted sched aid') aid =
      findActivity sched aid := by
  induction sched with
  | nil => rfl
  | cons e rest ih =>
    have hg : ∀ a : Activity,
        (((if a.activity_id = aid' then { a with state := "COMPLETED" }
          else a).activity_id == aid)) = (a.activity_id == aid) := by
      intro a
      by_cases hc : a.activity_id = aid' <;> simp [hc]
    simp only [setActivityCompleted, List.map_cons, findActivity]
    rw [find_map_pres _ _ hg]
    cases hfind : e.2.find? (fun a => a.activity_id == aid) with
    | none => simpa [setActivityCompleted] using ih
    | some a =>
      have haid : a.activity_id = aid := by
        simpa using List.find?_some hfind
      have : ¬ a.activity_id = aid' := by rw [haid]; exact fun hh => h hh.symm
      simp [this]

theorem completeFold_pres_found (now : Int) (ctxs : List (String × Ctx)) :
    ∀ (s : ServerState) (aid : String),
      (∀ x ∈ ctxs, x.1 ≠ aid) →
      findActivity (completeFold now ctxs s).schedule aid =
        findActivity s.schedule aid := by
  induction ctxs with
  | nil => intro s aid _; rfl
  | cons x rest ih =>
    intro s aid hne
    obtain ⟨xa, xc⟩ := x
    have hxa : xa ≠ aid := hne (xa, xc) (List.mem_cons_self _ _)
    have hrest : ∀ x ∈ rest, x.1 ≠ aid :=
      fun x hx => hne x (List.mem_cons_of_mem _ hx)
    by_cases hend : xc.end_time < now
    · rw [completeFold, if_pos hend, ih _ aid hrest]
      exact findActivity_setCompleted_ne s.schedule aid xa hxa
    · rw [completeFold, if_neg hend, ih _ aid hrest]

theorem completeFold_pres_idle (now : Int) (ctxs : List (String × Ctx)) :
    ∀ (s : ServerState) (fid : String) (fu : FuRec),
      dictGet s.registry fid = some fu → fu.state = "IDLE" →
      fu.current_pass = none →
      ∃ fu', dictGet (completeFold now ctxs s).registry fid = some fu' ∧
        fu'.state = "IDLE" ∧ fu'.current_pass = none := by
  induction ctxs with
  | nil => intro s fid fu h h1 h2; exact ⟨fu, h, h1, h2⟩
  | cons x rest ih =>
    intro s fid fu h h1 h2
    obtain ⟨xa, xc⟩ := x
    by_cases hend : xc.end_time < now
    · rw [completeFold, if_pos hend]
      cases hreg : dictGet s.registry xc.fu_id with
      | none =>
        refine ih _ fid fu ?_ h1 h2
        simp only [hreg]
        exact h
      | some fu2 =>
        by_cases hf : xc.fu_id = fid
        · subst hf
          refine ih _ xc.fu_id
            ({ fu2 with state := "IDLE", current_pass := none }) ?_ rfl rfl
          simp only [hreg]
          exact dictGet_dictSet_self _ _ _
        · refine ih _ fid fu ?_ h1 h2
          simp only [hreg]
          exact (dictGet_dictSet_ne s.registry xc.fu_id fid _
            (fun hh => hf hh.symm)).trans h
    · rw [completeFold, if_neg hend]
      exact ih s fid fu h h1 h2

theorem completeFold_pres_noctx (now : Int) (ctxs : List (String × Ctx)) :
    ∀ (s : ServerState) (aid : String),
      dictGet s.activityState aid = none →
      dictGet (completeFold now ctxs s).activityState aid = none := by
  induction ctxs with
  | nil => intro s aid h; exact h
  | cons x rest ih =>
    intro s aid h
    obtain ⟨xa, xc⟩ := x
    by_cases hend : xc.end_time < now
    · rw [completeFold, if_pos hend]
      refine ih _ aid ?_
      by_cases hx : aid = xa
      · subst hx; exact dictGet_dictRemove_self _ _
      · rw [dictGet_dictRemove_ne _ _ _ hx]; exact h
    · rw [completeFold, if_neg hend]
      exact ih s aid h

/-- Claim C3 (amended): on the executor tick, for every ACTIVITY_STATE
entry whose end time has passed (now > end): the scheduled activity with
that id transitions to COMPLETED, the entry is removed, and whenever the
owning FU is present in the registry its state is set to IDLE and its
current_activity (current_pass) cleared — REGARDLESS of the FU's previous
state: an OFFLINE FU is also set back to IDLE (completion overwrites
OFFLINE; disconnect does not win).  Only a FU absent from the registry is
left untouched. -/
theorem c3_completion (now : Int) (s : ServerState) (aid : String)
    (c : Ctx) (hmem : (aid, c) ∈ s.activityState)
    (hnd : (s.activityState.map (·.1)).Nodup)
    (hend : c.end_time < now) :
    (∀ a, findActivity s.schedule aid = some a →
      findActivity (completePhase now s).schedule aid =
        some { a with state := "COMPLETED" }) ∧
    (∀ fu, dictGet s.registry c.fu_id = some fu →
      ∃ fu', dictGet (completePhase now s).registry c.fu_id = some fu' ∧
        fu'.state = "IDLE" ∧ fu'.current_pass = none) ∧
    dictGet (completePhase now s).activityState aid = none := by
  rw [completePhase]
  have main : ∀ (ctxs : List (String × Ctx)) (s' : ServerState),
      (aid, c) ∈ ctxs → (ctxs.map (·.1)).Nodup →
      (∀ a, findActivity s'.schedule aid = some a →
        findActivity (completeFold now ctxs s').schedule aid =
          some { a with state := "COMPLETED" }) ∧
      (∀ fu, dictGet s'.registry c.fu_id = some fu →
        ∃ fu', dictGet (completeFold now ctxs s').registry c.fu_id =
          some fu' ∧ fu'.state = "IDLE" ∧ fu'.current_pass = none) ∧
      dictGet (completeFold now ctxs s').activityState aid = none := by
    intro ctxs
    induction ctxs with
    | nil => intro s' hm; cases hm
    | cons x rest ih =>
      intro s' hm hnd'
      obtain ⟨xa, xc⟩ := x
      have hndtail : (rest.map (·.1)).Nodup :=
        (List.nodup_cons.mp hnd').2
      have hhead : xa ∉ rest.map (·.1) := (List.nodup_cons.mp hnd').1
      rcases List.mem_cons.mp hm with hh | ht
      · -- our entry is processed first
        injection hh with h1 h2
        subst h1
        subst h2
        rw [completeFold, if_pos hend]
        have hrest : ∀ x ∈ rest, x.1 ≠ aid := by
          intro x hx hcontra
          exact hhead (hcontra ▸ List.mem_map_of_mem (·.1) hx)
        refine ⟨?_, ?_, ?_⟩
        · intro a ha
          rw [completeFold_pres_found now rest _ aid hrest]
          show findActivity (setActivityCompleted s'.schedule aid) aid = _
          rw [findActivity_setCompleted_self, ha]
          rfl
        · intro fu hfu
          refine completeFold_pres_idle now rest _ c.fu_id
            ({ fu with state := "IDLE", current_pass := none }) ?_ rfl rfl
          simp only [hfu]
          exact dictGet_dictSet_self _ _ _
        · refine completeFold_pres_noctx now rest _ aid ?_
          exact dictGet_dictRemove_self _ _
      · -- another entry is processed first
        have hxa : xa ≠ aid := by
          intro hcontra
          exact hhead (hcontra ▸ List.mem_map_of_mem (·.1) ht)
        by_cases hstep : xc.end_time < now
        · rw [completeFold, if_pos hstep]
          refine ⟨?_, ?_, (ih _ ht hndtail).2.2⟩
          · intro a ha
            refine (ih _ ht hndtail).1 a ?_
            show findActivity (setActivityCompleted s'.schedule xa) aid =
              some a
            rw [findActivity_setCompleted_ne _ _ _ hxa]
            exact ha
          · intro fu hfu
            cases hreg : dictGet s'.registry xc.fu_id with
            | none =>
              refine (ih _ ht hndtail).2.1 fu ?_
              simp only [hreg]
              exact hfu
            | some fu2 =>
              by_cases hf : xc.fu_id = c.fu_id
              · refine (ih _ ht hndtail).2.1
                  ({ fu2 with state := "IDLE", current_pass := none }) ?_
                simp only [hreg]
                rw [← hf]
                exact dictGet_dictSet_self _ _ _
              · refine (ih _ ht hndtail).2.1 fu ?_
                simp only [hreg]
                exact (dictGet_dictSet_ne s'.registry xc.fu_id c.fu_id _
                  (fun hh => hf hh.symm)).trans hfu
        · rw [completeFold, if_neg hstep]
          exact ih s' ht hndtail
  exact main s.activityState s hmem hnd

def c3wFu : FuRec :=
  ⟨"FU-A", "OFFLINE", "ERROR", "AUTO", none, none, none, 0, some "a1"⟩

def c3wAct : Activity := ⟨"a1", "SAT-1", 1, "TRACK", 0, 100, "ACTIVE"⟩

def c3wCtx : Ctx := ⟨"FU-A", "a1", 100, 0⟩

def c3wState : ServerState :=
  ⟨[("FU-A", c3wFu)], [("FU-A", [c3wAct])], [("a1", c3wCtx)]⟩

/-- Witness for c3_completion at a concrete input (an OFFLINE FU included
on purpose). -/
theorem c3_completion_witness :
    findActivity (completePhase 200 c3wState).schedule "a1" =
      some { c3wAct with state := "COMPLETED" } ∧
    (∃ fu', dictGet (completePhase 200 c3wState).registry "FU-A" =
      some fu' ∧ fu'.state = "IDLE" ∧ fu'.current_pass = none) ∧
    dictGet (completePhase 200 c3wState).activityState "a1" = none :=
  ⟨(c3_completion 200 c3wState "a1" c3wCtx (by decide) (by decide)
      (by decide)).1 c3wAct (by decide),
    (c3_completion 200 c3wState "a1" c3wCtx (by decide) (by decide)
      (by decide)).2.1 c3wFu (by decide),
    (c3_completion 200 c3wState "a1" c3wCtx (by decide) (by decide)
      (by decide)).2.2⟩

/-- The FU record after the activation loop: state BUSY and current_pass
the last activated id. -/
def busyRec (fu : FuRec) (lid : Option String) : FuRec :=
  { fu with state := "BUSY", current_pass := lid }

theorem activateActs_mem (now : Int) (fuId : String) (acts : List Activity)
    (a : Activity) (ha : a ∈ acts) (hpl : a.state = "PLANNED")
    (hw1 : a.start_time ≤ now) (hw2 : now ≤ a.end_time) :
    { a with state := "ACTIVE" } ∈ (activateActs now fuId acts).1 ∧
    (activateActs now fuId acts).2 ≠ [] := by
  induction acts with
  | nil => cases ha
  | cons b rest ih =>
    rcases List.mem_cons.mp ha with hb | hb
    · subst hb
      simp only [activateActs, if_pos (And.intro hpl (And.intro hw1 hw2))]
      exact ⟨List.mem_cons_self _ _, by simp⟩
    · obtain ⟨ihm, ihne⟩ := ih hb
      by_cases hc : b.state = "PLANNED" ∧ b.start_time ≤ now ∧
          now ≤ b.end_time
      · simp only [activateActs, if_pos hc]
        exact ⟨List.mem_cons_of_mem _ ihm, by simp⟩
      · simp only [activateActs, if_neg hc]
        exact ⟨List.mem_cons_of_mem _ ihm, ihne⟩

theorem lastId_ne_none (ctxs : List Ctx) (h : ctxs ≠ []) :
    ∃ lid, lastId ctxs = some lid := by
  cases hl : lastId ctxs with
  | none =>
    exfalso
    rw [lastId, List.getLast?_eq_none_iff] at hl
    exact h (List.map_eq_nil.mp hl)
  | some lid => exact ⟨lid, rfl⟩

theorem activateFold_reg_not_mem (now : Int)
    (es : List (String × List Activity)) :
    ∀ (reg : List (String × FuRec)) (actSt : List (String × Ctx))
      (fid : String), fid ∉ es.map (·.1) →
      dictGet (activateFold now es reg actSt).2.1 fid = dictGet reg fid := by
  induction es with
  | nil => intro reg actSt fid _; rfl
  | cons e rest ih =>
    intro reg actSt fid hf
    obtain ⟨g, gacts⟩ := e
    simp only [List.map_cons, List.mem_cons] at hf
    push_neg at hf
    rw [activateFold]
    cases hreg : dictGet reg g with
    | none =>
      simp only [hreg]
      exact ih _ _ _ hf.2
    | some fu =>
      simp only [hreg]
      by_cases hidle : fu.state = "IDLE"
      · rw [if_pos hidle]
        cases hlast : lastId (activateActs now g gacts).2 with
        | none =>
          simp only [hlast]
          exact ih _ _ _ hf.2
        | some lid =>
          simp only [hlast]
          rw [ih _ _ _ hf.2]
          exact dictGet_dictSet_ne _ _ _ _ hf.1
      · rw [if_neg hidle]
        exact ih _ _ _ hf.2

theorem activateFold_at (now : Int) (es : List (String × List Activity)) :
    ∀ (reg : List (String × FuRec)) (actSt : List (String × Ctx))
      (fuId : String) (fu : FuRec) (acts : List Activity),
      (es.map (·.1)).Nodup →
      dictGet es fuId = some acts →
      dictGet reg fuId = some fu →
      fu.state = "IDLE" →
      (activateActs now fuId acts).2 ≠ [] →
      dictGet (activateFold now es reg actSt).1 fuId =
        some (activateActs now fuId acts).1 ∧
      dictGet (activateFold now es reg actSt).2.1 fuId =
        some (busyRec fu (lastId (activateActs now fuId acts).2)) := by
  induction es with
  | nil =>
    intro reg actSt fuId fu acts _ hsched
    simp [dictGet] at hsched
  | cons e rest ih =>
    intro reg actSt fuId fu acts hnd hsched hreg hidle hne
    obtain ⟨g, gacts⟩ := e
    simp only [List.map_cons] at hnd
    have hndhead := (List.nodup_cons.mp hnd).1
    have hndtail := (List.nodup_cons.mp hnd).2
    by_cases hg : g = fuId
    · subst hg
      have hacts : gacts = acts := by
        rw [dictGet, if_pos rfl] at hsched
        exact Option.some.inj hsched
      subst hacts
      obtain ⟨lid, hlid⟩ := lastId_ne_none _ hne
      rw [activateFold]
      simp only [hreg]
      rw [if_pos hidle]
      simp only [hlid]
      constructor
      · simp [dictGet]
      · rw [activateFold_reg_not_mem now rest _ _ g hndhead]
        exact dictGet_dictSet_self _ _ _
    · have hsched' : dictGet rest fuId = some acts := by
        rw [dictGet, if_neg hg] at hsched
        exact hsched
      rw [activateFold]
      cases hreg2 : dictGet reg g with
      | none =>
        simp only [hreg2]
        refine ⟨?_, (ih _ _ _ _ _ hndtail hsched' hreg hidle hne).2⟩
        rw [dictGet, if_neg hg]
        exact (ih _ _ _ _ _ hndtail hsched' hreg hidle hne).1
      | some fu2 =>
        simp only [hreg2]
        by_cases hidle2 : fu2.state = "IDLE"
        · rw [if_pos hidle2]
          cases hlast2 : lastId (activateActs now g gacts).2 with
          | none =>
            simp only [hlast2]
            refine ⟨?_, (ih _ _ _ _ _ hndtail hsched' hreg hidle hne).2⟩
            rw [dictGet, if_neg hg]
            exact (ih _ _ _ _ _ hndtail hsched' hreg hidle hne).1
          | some lid2 =>
            simp only [hlast2]
            have hreg' : dictGet (dictSet reg g
                { fu2 with state := "BUSY", current_pass := some lid2 })
                fuId = some fu :=
              (dictGet_dictSet_ne _ _ _ _
                (fun hh => hg hh.symm)).trans hreg
            refine ⟨?_, (ih _ _ _ _ _ hndtail hsched' hreg' hidle hne).2⟩
            rw [dictGet, if_neg hg]
            exact (ih _ _ _ _ _ hndtail hsched' hreg' hidle hne).1
        · rw [if_neg hidle2]
          refine ⟨?_, (ih _ _ _ _ _ hndtail hsched' hreg hidle hne).2⟩
          rw [dictGet, if_neg hg]
          exact (ih _ _ _ _ _ hndtail hsched' hreg hidle hne).1

/-- Claim C2 (amended): state == BUSY iff some-ACTIVE-activity is NOT an
invariant of the full operation set: a heartbeat stores the reported state
verbatim (so a BUSY report creates a BUSY FU with no ACTIVE activity, see
the counterexample) and a disconnect sets OFFLINE while leaving activities
ACTIVE.  What the Execution Engine does guarantee is that its activation
step establishes both sides together, atomically per tick: when an IDLE
registered FU has a PLANNED scheduled activity whose window contains now,
after the activation phase the FU's record is BUSY with current_activity
(current_pass) set to the last activated id, and the activity is ACTIVE in
the FU's schedule entry. -/
theorem c2_activation_pairs (now : Int) (s : ServerState) (fuId : String)
    (fu : FuRec) (acts : List Activity) (a : Activity)
    (hk : (s.schedule.map (·.1)).Nodup)
    (hsched : dictGet s.schedule fuId = some acts)
    (hreg : dictGet s.registry fuId = some fu)
    (hidle : fu.state = "IDLE")
    (ha : a ∈ acts) (hpl : a.state = "PLANNED")
    (hw1 : a.start_time ≤ now) (hw2 : now ≤ a.end_time) :
    dictGet (activatePhase now s).registry fuId =
      some (busyRec fu (lastId (activateActs now fuId acts).2)) ∧
    (lastId (activateActs now fuId acts).2).isSome = true ∧
    dictGet (activatePhase now s).schedule fuId =
      some (activateActs now fuId acts).1 ∧
    { a with state := "ACTIVE" } ∈ (activateActs now fuId acts).1 := by
  have hmem := activateActs_mem now fuId acts a ha hpl hw1 hw2
  have hat := activateFold_at now s.schedule s.registry s.activityState
    fuId fu acts hk hsched hreg hidle hmem.2
  obtain ⟨lid, hlid⟩ := lastId_ne_none _ hmem.2
  exact ⟨hat.2, by simp [hlid], hat.1, hmem.1⟩

def c2wFu : FuRec := ⟨"FU-B", "IDLE", "OK", "AUTO", none, none, none, 0, none⟩

def c2wAct : Activity := ⟨"b1", "SAT-9", 9, "TRACK", 0, 100, "PLANNED"⟩

def c2wState : ServerState := ⟨[("FU-B", c2wFu)], [("FU-B", [c2wAct])], []⟩

/-- Witness for c2_activation_pairs at a concrete input. -/
theorem c2_activation_pairs_witness :
    dictGet (activatePhase 50 c2wState).registry "FU-B" =
      some (busyRec c2wFu (lastId (activateActs 50 "FU-B" [c2wAct]).2)) ∧
    { c2wAct with state := "ACTIVE" } ∈
      (activateActs 50 "FU-B" [c2wAct]).1 :=
  ⟨(c2_activation_pairs 50 c2wState "FU-B" c2wFu [c2wAct] c2wAct
      (by decide) (by decide) (by decide) rfl (by decide) rfl (by decide)
      (by decide)).1,
    (c2_activation_pairs 50 c2wState "FU-B" c2wFu [c2wAct] c2wAct
      (by decide) (by decide) (by decide) rfl (by decide) rfl (by decide)
      (by decide)).2.2.2⟩

/-- An activity carrying the watched id is PLANNED with an already-expired
window end: such an activity can never satisfy the activation condition at
any tick time from now0 on. -/
def StuckAct (newId : String) (now0 : Int) (a : Activity) : Prop :=
  a.activity_id = newId → a.state = "PLANNED" ∧ a.end_time < now0

theorem find_cons_false (p : Activity → Bool) (b' b : Activity)
    (h1 : p b' = false) (h2 : p b = false) (l1 l2 : List Activity)
    (hl : l1.find? p = l2.find? p) :
    (b' :: l1).find? p = (b :: l2).find? p := by
  rw [List.find?_cons, List.find?_cons, h1, h2]
  exact hl

theorem find_cons_same (p : Activity → Bool) (b : Activity)
    (l1 l2 : List Activity) (hl : l1.find? p = l2.find? p) :
    (b :: l1).find? p = (b :: l2).find? p := by
  rw [List.find?_cons, List.find?_cons]
  cases hb : p b
  · exact hl
  · rfl

theorem activateActs_stuck (now now0 : Int) (fuId newId : String)
    (acts : List Activity) (hnow : now0 ≤ now)
    (h : ∀ a ∈ acts, StuckAct newId now0 a) :
    (activateActs now fuId acts).1.find?
        (fun a => a.activity_id == newId) =
      acts.find? (fun a => a.activity_id == newId) ∧
    (∀ a ∈ (activateActs now fuId acts).1, StuckAct newId now0 a) ∧
    (∀ c ∈ (activateActs now fuId acts).2, c.activity_id ≠ newId) := by
  induction acts with
  | nil =>
    refine ⟨rfl, ?_, ?_⟩
    · intro a ha
      simp [activateActs] at ha
    · intro c hc
      simp [activateActs] at hc
  | cons b rest ih =>
    have hrest : ∀ a ∈ rest, StuckAct newId now0 a :=
      fun a ha => h a (List.mem_cons_of_mem _ ha)
    obtain ⟨ih1, ih2, ih3⟩ := ih hrest
    by_cases hc : b.state = "PLANNED" ∧ b.start_time ≤ now ∧
        now ≤ b.end_time
    · have hbid : b.activity_id ≠ newId := by
        intro hidn
        obtain ⟨hst, hed⟩ := h b (List.mem_cons_self _ _) hidn
        obtain ⟨hc1, hc2, hc3⟩ := hc
        omega
      simp only [activateActs, if_pos hc]
      refine ⟨?_, ?_, ?_⟩
      · refine find_cons_false _ _ _ ?_ ?_ _ _ ih1
        · simp [hbid]
        · simp [hbid]
      · intro a ha
        rcases List.mem_cons.mp ha with h1 | h1
        · subst h1
          intro hidn
          exact absurd hidn hbid
        · exact ih2 a h1
      · intro c hcmem
        rcases List.mem_cons.mp hcmem with h1 | h1
        · subst h1
          exact hbid
        · exact ih3 c h1
    · simp only [activateActs, if_neg hc]
      refine ⟨?_, ?_, ih3⟩
      · exact find_cons_same _ b _ _ ih1
      · intro a ha
        rcases List.mem_cons.mp ha with h1 | h1
        · subst h1
          exact h _ (List.mem_cons_self _ _)
        · exact ih2 a h1

theorem dictGet_foldl_dictSet_ne (ctxs : List Ctx) (k : String)
    (h : ∀ c ∈ ctxs, c.activity_id ≠ k) :
    ∀ m : List (String × Ctx),
      dictGet (ctxs.foldl (fun m c => dictSet m c.activity_id c) m) k =
        dictGet m k := by
  induction ctxs with
  | nil => intro m; rfl
  | cons c rest ih =>
    intro m
    rw [List.foldl_cons,
      ih (fun c' hc' => h c' (List.mem_cons_of_mem _ hc'))]
    exact dictGet_dictSet_ne _ _ _ _
      (fun hh => h c (List.mem_cons_self _ _) hh.symm)

theorem activateFold_stuck (now now0 : Int) (newId : String)
    (es : List (String × List Activity)) (hnow : now0 ≤ now) :
    ∀ (reg : List (String × FuRec)) (actSt : List (String × Ctx)),
      (∀ e ∈ es, ∀ a ∈ e.2, StuckAct newId now0 a) →
      dictGet actSt newId = none →
      findActivity (activateFold now es reg actSt).1 newId =
        findActivity es newId ∧
      (∀ e ∈ (activateFold now es reg actSt).1, ∀ a ∈ e.2,
        StuckAct newId now0 a) ∧
      dictGet (activateFold now es reg actSt).2.2 newId = none := by
  induction es with
  | nil =>
    intro reg actSt _ hctx
    refine ⟨rfl, ?_, hctx⟩
    intro e he
    simp [activateFold] at he
  | cons e rest ih =>
    intro reg actSt hall hctx
    obtain ⟨g, gacts⟩ := e
    have hgacts : ∀ a ∈ gacts, StuckAct newId now0 a :=
      fun a ha => hall (g, gacts) (List.mem_cons_self _ _) a ha
    have hrest : ∀ e ∈ rest, ∀ a ∈ e.2, StuckAct newId now0 a :=
      fun e he => hall e (List.mem_cons_of_mem _ he)
    rw [activateFold]
    cases hreg : dictGet reg g with
    | none =>
      simp only [hreg]
      obtain ⟨j1, j2, j3⟩ := ih reg actSt hrest hctx
      refine ⟨?_, ?_, j3⟩
      · rw [findActivity, findActivity]
        cases hf : gacts.find? (fun a => a.activity_id == newId) <;>
          simp [hf, j1]
      · intro e' he'
        rcases List.mem_cons.mp he' with h1 | h1
        · subst h1; exact hgacts
        · exact j2 e' h1
    | some fu =>
      simp only [hreg]
      by_cases hidle : fu.state = "IDLE"
      · rw [if_pos hidle]
        obtain ⟨k1, k2, k3⟩ :=
          activateActs_stuck now now0 g newId gacts hnow hgacts
        have hctx1 : dictGet ((activateActs now g gacts).2.foldl
            (fun m c => dictSet m c.activity_id c) actSt) newId = none := by
          rw [dictGet_foldl_dictSet_ne _ _ k3]
          exact hctx
        cases hlast : lastId (activateActs now g gacts).2 with
        | none =>
          simp only [hlast]
          obtain ⟨j1, j2, j3⟩ := ih _ _ hrest hctx1
          refine ⟨?_, ?_, j3⟩
          · rw [findActivity, findActivity, k1]
            cases hf : gacts.find? (fun a => a.activity_id == newId) <;>
              simp [hf, j1]
          · intro e' he'
            rcases List.mem_cons.mp he' with h1 | h1
            · subst h1; exact k2
            · exact j2 e' h1
        | some lid =>
          simp only [hlast]
          obtain ⟨j1, j2, j3⟩ := ih _ _ hrest hctx1
          refine ⟨?_, ?_, j3⟩
          · rw [findActivity, findActivity, k1]
            cases hf : gacts.find? (fun a => a.activity_id == newId) <;>
              simp [hf, j1]
          · intro e' he'
            rcases List.mem_cons.mp he' with h1 | h1
            · subst h1; exact k2
            · exact j2 e' h1
      · rw [if_neg hidle]
        obtain ⟨j1, j2, j3⟩ := ih reg actSt hrest hctx
        refine ⟨?_, ?_, j3⟩
        · rw [findActivity, findActivity]
          cases hf : gacts.find? (fun a => a.activity_id == newId) <;>
            simp [hf, j1]
        · intro e' he'
          rcases List.mem_cons.mp he' with h1 | h1
          · subst h1; exact hgacts
          · exact j2 e' h1

theorem setCompleted_pres_stuck (sched : List (String × List Activity))
    (aid newId : String) (now0 : Int) (hne : aid ≠ newId)
    (h : ∀ e ∈ sched, ∀ a ∈ e.2, StuckAct newId now0 a) :
    ∀ e ∈ setActivityCompleted sched aid, ∀ a ∈ e.2,
      StuckAct newId now0 a := by
  intro e he a ha
  rw [setActivityCompleted, List.mem_map] at he
  obtain ⟨e0, he0, rfl⟩ := he
  rw [List.mem_map] at ha
  obtain ⟨a0, ha0, rfl⟩ := ha
  by_cases hc : a0.activity_id = aid
  · rw [if_pos hc]
    intro hidn
    exact absurd (hc.symm.trans hidn) hne
  · rw [if_neg hc]
    exact h e0 he0 a0 ha0

theorem completeFold_pres_stuck (now now0 : Int) (newId : String)
    (ctxs : List (String × Ctx)) :
    ∀ s : ServerState,
      (∀ x ∈ ctxs, x.1 ≠ newId) →
      (∀ e ∈ s.schedule, ∀ a ∈ e.2, StuckAct newId now0 a) →
      ∀ e ∈ (completeFold now ctxs s).schedule, ∀ a ∈ e.2,
        StuckAct newId now0 a := by
  induction ctxs with
  | nil => intro s _ hall; exact hall
  | cons x rest ih =>
    intro s hks hall
    obtain ⟨xa, xc⟩ := x
    have hkrest : ∀ x ∈ rest, x.1 ≠ newId :=
      fun x hx => hks x (List.mem_cons_of_mem _ hx)
    by_cases hend : xc.end_time < now
    · rw [completeFold, if_pos hend]
      refine ih _ hkrest ?_
      exact setCompleted_pres_stuck s.schedule xa newId now0
        (hks (xa, xc) (List.mem_cons_self _ _)) hall
    · rw [completeFold, if_neg hend]
      exact ih s hkrest hall

theorem tick_stuck (now now0 : Int) (newId : String) (act0 : Activity)
    (s : ServerState) (hnow : now0 ≤ now)
    (h1 : ∀ e ∈ s.schedule, ∀ a ∈ e.2, StuckAct newId now0 a)
    (h2 : dictGet s.activityState newId = none)
    (h3 : findActivity s.schedule newId = some act0) :
    (∀ e ∈ (tick now s).schedule, ∀ a ∈ e.2, StuckAct newId now0 a) ∧
    dictGet (tick now s).activityState newId = none ∧
    findActivity (tick now s).schedule newId = some act0 := by
  obtain ⟨a1, a2, a3⟩ := activateFold_stuck now now0 newId s.schedule hnow
    s.registry s.activityState h1 h2
  have hkeys : ∀ x ∈ (activatePhase now s).activityState, x.1 ≠ newId :=
    dictGet_none_imp _ _ a3
  refine ⟨?_, ?_, ?_⟩
  · exact completeFold_pres_stuck now now0 newId
      (activatePhase now s).activityState (activatePhase now s) hkeys a2
  · exact completeFold_pres_noctx now (activatePhase now s).activityState
      (activatePhase now s) newId a3
  · have hfp := completeFold_pres_found now
      (activatePhase now s).activityState (activatePhase now s) newId hkeys
    exact hfp.trans (a1.trans h3)

theorem iterTicks_stuck (now0 : Int) (newId : String) (act0 : Activity) :
    ∀ (n : Nat) (τ : Nat → Int) (s : ServerState),
      (∀ i, now0 ≤ τ i) →
      (∀ e ∈ s.schedule, ∀ a ∈ e.2, StuckAct newId now0 a) →
      dictGet s.activityState newId = none →
      findActivity s.schedule newId = some act0 →
      findActivity (iterTicks τ n s).schedule newId = some act0 := by
  intro n
  induction n with
  | zero => intro τ s _ _ _ h3; exact h3
  | succ n ihn =>
    intro τ s hτ h1 h2 h3
    rw [iterTicks]
    obtain ⟨k1, k2, k3⟩ :=
      tick_stuck (τ 0) now0 newId act0 s (hτ 0) h1 h2 h3
    exact ihn (fun i => τ (i + 1)) _ (fun i => hτ (i + 1)) k1 k2 k3

theorem find_none_of_fresh (l : List Activity) (newId : String)
    (h : ∀ a ∈ l, a.activity_id ≠ newId) :
    l.find? (fun a => a.activity_id == newId) = none := by
  rw [List.find?_eq_none]
  intro a ha
  simp [h a ha]

theorem findActivity_append_fresh (es : List (String × List Activity))
    (fuId newId : String) (act : Activity) (hact : act.activity_id = newId)
    (hfresh : ∀ e ∈ es, ∀ a ∈ e.2, a.activity_id ≠ newId) :
    findActivity (es ++ [(fuId, [act])]) newId = some act := by
  induction es with
  | nil => simp [findActivity, List.find?_cons, hact]
  | cons e rest ih =>
    obtain ⟨g, gacts⟩ := e
    rw [List.cons_append, findActivity,
      find_none_of_fresh gacts newId
        (fun a ha => hfresh (g, gacts) (List.mem_cons_self _ _) a ha)]
    exact ih (fun e he => hfresh e (List.mem_cons_of_mem _ he))

theorem findActivity_mapAppend_fresh (es : List (String × List Activity))
    (fuId newId : String) (act : Activity) (hact : act.activity_id = newId)
    (hfresh : ∀ e ∈ es, ∀ a ∈ e.2, a.activity_id ≠ newId)
    (hmem : fuId ∈ es.map (·.1)) :
    findActivity (es.map (fun e =>
      (e.1, if e.1 = fuId then e.2 ++ [act] else e.2))) newId = some act := by
  induction es with
  | nil => cases hmem
  | cons e rest ih =>
    obtain ⟨g, gacts⟩ := e
    by_cases hg : g = fuId
    · subst hg
      have hsome : (gacts ++ [act]).find?
          (fun a => a.activity_id == newId) = some act := by
        rw [List.find?_append,
          find_none_of_fresh gacts newId
            (fun a ha => hfresh (g, gacts) (List.mem_cons_self _ _) a ha)]
        simp [List.find?_cons, hact]
      simp [findActivity, hsome]
    · have hnone : gacts.find? (fun a => a.activity_id == newId) = none :=
        find_none_of_fresh gacts newId
          (fun a ha => hfresh (g, gacts) (List.mem_cons_self _ _) a ha)
      have hmem' : fuId ∈ rest.map (·.1) := by
        rcases (by simpa using hmem :
            fuId = g ∨ ∃ x, (fuId, x) ∈ rest) with h1 | ⟨x, h1⟩
        · exact absurd h1.symm hg
        · exact List.mem_map.mpr ⟨(fuId, x), h1, rfl⟩
      simp only [List.map_cons, findActivity, if_neg hg, hnone]
      exact ih (fun e he => hfresh e (List.mem_cons_of_mem _ he)) hmem'

/-- Claim C8 (amended): a CUSTOM_TRACK activity inserted into the Schedule
whose end_time is already in the past relative to every subsequent tick
time never transitions out of PLANNED under the baseline activation rule,
for as long as the system runs: the inserted record is still present,
still PLANNED, and entirely unchanged after any number of executor ticks
(the original claim required only start_time in the past, which is refuted
by the counterexample: with the end still in the future, start ≤ now ≤ end
holds and the activity is activated). -/
theorem c8_expired_custom_track_stays_planned (s : ServerState)
    (fuId : String) (noradId : Int) (startT endT : Int) (newId : String)
    (now0 : Int) (τ : Nat → Int) (n : Nat)
    (hend : endT < now0)
    (hτ : ∀ i, now0 ≤ τ i)
    (hfresh : ∀ e ∈ s.schedule, ∀ a ∈ e.2, a.activity_id ≠ newId)
    (hctx : dictGet s.activityState newId = none) :
    findActivity (iterTicks τ n
        (create_custom_tracking s fuId noradId startT endT newId)).schedule
      newId = some (customAct noradId startT endT newId) := by
  have hact : (customAct noradId startT endT newId).activity_id = newId :=
    rfl
  have hstuck : ∀ e ∈ (create_custom_tracking s fuId noradId startT endT
      newId).schedule, ∀ a ∈ e.2, StuckAct newId now0 a := by
    intro e he a ha
    rw [create_custom_tracking] at he
    by_cases hcont : (s.schedule.map (·.1)).contains fuId
    · rw [if_pos hcont] at he
      rw [List.mem_map] at he
      obtain ⟨e0, he0, rfl⟩ := he
      by_cases hg : e0.1 = fuId
      · rw [if_pos hg] at ha
        rcases List.mem_append.mp ha with h1 | h1
        · intro hidn
          exact absurd hidn (hfresh e0 he0 a h1)
        · rcases List.mem_singleton.mp h1 with rfl
          intro _
          exact ⟨rfl, hend⟩
      · rw [if_neg hg] at ha
        intro hidn
        exact absurd hidn (hfresh e0 he0 a ha)
    · rw [if_neg hcont] at he
      rcases List.mem_append.mp he with h1 | h1
      · intro hidn
        exact absurd hidn (hfresh e h1 a ha)
      · rcases List.mem_singleton.mp h1 with rfl
        rcases List.mem_singleton.mp ha with rfl
        intro _
        exact ⟨rfl, hend⟩
  have hfind : findActivity (create_custom_tracking s fuId noradId startT
      endT newId).schedule newId =
      some (customAct noradId startT endT newId) := by
    rw [create_custom_tracking]
    by_cases hcont : (s.schedule.map (·.1)).contains fuId
    · rw [if_pos hcont]
      refine findActivity_mapAppend_fresh s.schedule fuId newId _ hact
        hfresh ?_
      simpa using hcont
    · rw [if_neg hcont]
      exact findActivity_append_fresh s.schedule fuId newId _ hact hfresh
  exact iterTicks_stuck now0 newId _ n τ _ hτ hstuck hctx hfind

/-- Witness for c8_expired_custom_track_stays_planned at a concrete
input. -/
theorem c8_expired_custom_track_stays_planned_witness :
    ((40 : Int) < 50) ∧
    findActivity (iterTicks (fun _ => 50) 2
        (create_custom_tracking ⟨[], [], []⟩ "FU-A" 7 10 40
          "act-9")).schedule "act-9" =
      some (customAct 7 10 40 "act-9") :=
  ⟨by decide,
    c8_expired_custom_track_stays_planned ⟨[], [], []⟩ "FU-A" 7 10 40
      "act-9" 50 (fun _ => 50) 2 (by decide) (fun _ => le_refl 50)
      (by intro e he; cases he) rfl⟩

def c8s2 : ServerState := create_custom_tracking c3s1 "FU-A" 7 10 100 "act-2"

/-- Claim C8 counterexample: a CUSTOM_TRACK activity inserted with
start_time already in the past (start=10 < now=50) but end_time still in
the future (end=100) IS activated by the next tick, because the activation
rule start ≤ now ≤ end holds; the claim that such an activity never leaves
PLANNED is false — it only holds when the end time has also passed. -/
theorem c8_past_start_activates_counterexample :
    (findActivity c8s2.schedule "act-2").map (·.state) = some "PLANNED" ∧
    (findActivity (tick 50 c8s2).schedule "act-2").map (·.state) =
      some "ACTIVE" ∧
    ¬ (findActivity (tick 50 c8s2).schedule "act-2").map (·.state) =
      some "PLANNED" := by
  refine ⟨by decide, by decide, by decide⟩

end Server
